import Mathlib

set_option maxHeartbeats 1000000
set_option linter.unusedVariables false

/-!
Verification of the trigger module of the swerv-ISS RISC-V simulator
(`src/Triggers.cpp`).  The bank-level logic (`Triggers<URV>` member
functions) is translated directly from `Triggers.cpp`.  The per-trigger
register model (`Trigger<URV>` member functions) lives in the header
`Triggers.hpp`, which is not part of the sources; those definitions are
modelled from the specification (each carries a doc comment saying so).

Machine values (URV = uint32_t or uint64_t) are modelled as `Nat` with an
explicit register width `w` and `% 2 ^ w` truncation at the points where
the C++ code can overflow (shifts in `doMatch`).  Register `data1` is
modelled in its decoded form, following the specification's data model
("control: decoded view of register data1") and its design note that the
overlapping bit-field view should be reimplemented as an explicit
decoded structure.
-/

/-- Raw value of the `TriggerType::AddrData` enumerator.  The numeric enum
values live in the missing header; only distinctness of the enumerators
matters here. -/
def addrDataType : Nat := 2

/-- Raw value of the `TriggerType::Icount` enumerator. -/
def icountType : Nat := 3

/-- Raw value of the `Select::MatchAddress` enumerator. -/
def selMatchAddress : Nat := 0

/-- Raw value of the `Select::MatchData` enumerator. -/
def selMatchData : Nat := 1

/-- Raw value of the `Match::Equal` enumerator. -/
def matchEqual : Nat := 0

/-- Raw value of the `Match::Masked` enumerator. -/
def matchMasked : Nat := 1

/-- Raw value of the `Match::GE` enumerator. -/
def matchGE : Nat := 2

/-- Raw value of the `Match::LT` enumerator. -/
def matchLT : Nat := 3

/-- Raw value of the `Match::MaskHighEqualLow` enumerator. -/
def matchMaskHighEqualLow : Nat := 4

/-- Raw value of the `Match::MaskLowEqualHigh` enumerator. -/
def matchMaskLowEqualHigh : Nat := 5

/-- Modelled from the spec: decoded view of trigger register `data1`
(the `Data1Bits`/`Mcontrol` overlay of the missing header).  Fields:
trigger type, debug-mode-only write gate, enable bit `m_`, chain bit,
match mode, select (address vs data), timing, execute/load/store
applicability, and the action policy bit read by `isEnterDebugOnHit`
(the spec's "fires only in debug mode or with interrupts enabled"
policy bit). -/
structure Data1 where
  type_ : Nat
  dmode_ : Bool
  m_ : Bool
  chain_ : Bool
  match_ : Nat
  select_ : Nat
  timing_ : Nat
  execute_ : Bool
  load_ : Bool
  store_ : Bool
  enterDebug_ : Bool
deriving DecidableEq

/-- Modelled from the spec: per-field write/poke legality filter for the
decoded `data1` register ("per-register legality filters", `writeMask1`
and `pokeMask1`).  A `true` field lets the incoming value through, a
`false` field keeps the stored value. -/
structure Data1Mask where
  type_ : Bool
  dmode_ : Bool
  m_ : Bool
  chain_ : Bool
  match_ : Bool
  select_ : Bool
  timing_ : Bool
  execute_ : Bool
  load_ : Bool
  store_ : Bool
  enterDebug_ : Bool
deriving DecidableEq

/-- Modelled from the spec: field-wise mask-filtered merge of a written
value into the stored decoded `data1` (the C++ code's
`(old & ~mask) | (value & mask)` at decoded-field granularity). -/
def maskedMerge (old v : Data1) (mask : Data1Mask) : Data1 :=
  { type_ := if mask.type_ then v.type_ else old.type_
    dmode_ := if mask.dmode_ then v.dmode_ else old.dmode_
    m_ := if mask.m_ then v.m_ else old.m_
    chain_ := if mask.chain_ then v.chain_ else old.chain_
    match_ := if mask.match_ then v.match_ else old.match_
    select_ := if mask.select_ then v.select_ else old.select_
    timing_ := if mask.timing_ then v.timing_ else old.timing_
    execute_ := if mask.execute_ then v.execute_ else old.execute_
    load_ := if mask.load_ then v.load_ else old.load_
    store_ := if mask.store_ then v.store_ else old.store_
    enterDebug_ := if mask.enterDebug_ then v.enterDebug_ else old.enterDebug_ }

/-- One trigger unit: registers, derived compare mask, reset values and
write/poke masks, chain bounds, hit state, modified flag and the icount
countdown.  Field names follow the C++ members (`data1_`, `data2_`,
`data2CompareMask_`, ...). -/
structure Trigger where
  data1_ : Data1
  data2_ : Nat
  data3_ : Nat
  data2CompareMask_ : Nat
  data1Reset_ : Data1
  data2Reset_ : Nat
  data3Reset_ : Nat
  data1WriteMask_ : Data1Mask
  data2WriteMask_ : Nat
  data3WriteMask_ : Nat
  data1PokeMask_ : Data1Mask
  data2PokeMask_ : Nat
  data3PokeMask_ : Nat
  hit_ : Bool
  localHit_ : Bool
  modified_ : Bool
  chainBegin_ : Nat
  chainEnd_ : Nat
  counter_ : Nat
deriving DecidableEq

/-- All-zero decoded `data1` value (C++ default initialisation). -/
def defaultData1 : Data1 :=
  { type_ := 0, dmode_ := false, m_ := false, chain_ := false, match_ := 0,
    select_ := 0, timing_ := 0, execute_ := false, load_ := false,
    store_ := false, enterDebug_ := false }

/-- All-false `data1` mask. -/
def defaultData1Mask : Data1Mask :=
  { type_ := false, dmode_ := false, m_ := false, chain_ := false,
    match_ := false, select_ := false, timing_ := false, execute_ := false,
    load_ := false, store_ := false, enterDebug_ := false }

/-- All-true `data1` mask. -/
def fullData1Mask : Data1Mask :=
  { type_ := true, dmode_ := true, m_ := true, chain_ := true,
    match_ := true, select_ := true, timing_ := true, execute_ := true,
    load_ := true, store_ := true, enterDebug_ := true }

/-- Default-constructed trigger (C++ `Trigger<URV>` default constructor:
zero-initialised members). -/
def defaultTrigger : Trigger :=
  { data1_ := defaultData1, data2_ := 0, data3_ := 0, data2CompareMask_ := 0,
    data1Reset_ := defaultData1, data2Reset_ := 0, data3Reset_ := 0,
    data1WriteMask_ := defaultData1Mask, data2WriteMask_ := 0,
    data3WriteMask_ := 0, data1PokeMask_ := defaultData1Mask,
    data2PokeMask_ := 0, data3PokeMask_ := 0, hit_ := false,
    localHit_ := false, modified_ := false, chainBegin_ := 0,
    chainEnd_ := 0, counter_ := 0 }

namespace Trigger

/-- Modelled from the spec: chain-bit accessor (`chainBitSet`). -/
def getChain (t : Trigger) : Bool := t.data1_.chain_

/-- Modelled from the spec: timing accessor; the raw timing field value. -/
def getTiming (t : Trigger) : Nat := t.data1_.timing_

/-- Modelled from the spec: local-hit accessor. -/
def getLocalHit (t : Trigger) : Bool := t.localHit_

/-- Modelled from the spec: set the local-hit flag. -/
def setLocalHit (t : Trigger) (f : Bool) : Trigger := { t with localHit_ := f }

/-- Modelled from the spec: set the chain-wide hit flag. -/
def setHit (t : Trigger) (f : Bool) : Trigger := { t with hit_ := f }

/-- Modelled from the spec: chain-bounds accessor (`getChainBounds`). -/
def getChainBounds (t : Trigger) : Nat × Nat := (t.chainBegin_, t.chainEnd_)

/-- Modelled from the spec: install the chain bounds (`setChainBounds`). -/
def setChainBounds (t : Trigger) (b e : Nat) : Trigger :=
  { t with chainBegin_ := b, chainEnd_ := e }

/-- Modelled from the spec: the action policy bit queried by the event
loops ("fires only in debug mode or with interrupts enabled"; the spec's
`firesOnInterruptOnly` is described as: if false, the trigger only
evaluates when the caller reports interrupts currently enabled, which is
exactly how `isEnterDebugOnHit` is used by `Triggers.cpp`). -/
def isEnterDebugOnHit (t : Trigger) : Bool := t.data1_.enterDebug_

/-- Modelled from the spec: written-during-current-instruction guard. -/
def isModified (t : Trigger) : Bool := t.modified_

/-- Modelled from the spec: raw read of register 1 (decoded form). -/
def readData1 (t : Trigger) : Data1 := t.data1_

/-- Modelled from the spec: raw read of register 2. -/
def readData2 (t : Trigger) : Nat := t.data2_

/-- Modelled from the spec: raw read of register 3. -/
def readData3 (t : Trigger) : Nat := t.data3_

/-- Bit complement within an explicit register width `w`. -/
def complW (w m : Nat) : Nat := Nat.xor (2 ^ w - 1) m

/-- Position of the least significant zero bit of `v` (helper for the
compare-mask derivation); fuel-based recursion, `v + 1` fuel suffices. -/
def leastSigZeroBitAux : Nat → Nat → Nat
  | 0, _ => 0
  | fuel + 1, v => if v % 2 = 0 then 0 else 1 + leastSigZeroBitAux fuel (v / 2)

/-- Position of the least significant zero bit of `v`. -/
def leastSigZeroBit (v : Nat) : Nat := leastSigZeroBitAux (v + 1) v

/-- Modelled from the spec: the compare mask derived from a freshly
written `data2` value ("compareMask: derived mask used only in Masked
mode, re-derived whenever compareValue is written").  The derivation
formula itself is not given by the spec; a NAPOT-style mask clearing the
trailing-ones region of the value is used.  No claim depends on the
formula. -/
def deriveCompareMask (w v : Nat) : Nat :=
  ((2 ^ w - 1) <<< (leastSigZeroBit v + 1)) % 2 ^ w

/-- Modelled from the spec: `writeRegister1(debugMode, value)` — gated by
debug mode (fields marked `dmode_` are writable only while the hart is in
debug mode), filters the value through `writeMask1`, marks the trigger
modified; returns whether the write was applied, with no mutation on
failure. -/
def writeData1 (t : Trigger) (debugMode : Bool) (v : Data1) : Bool × Trigger :=
  if t.data1_.dmode_ && !debugMode then (false, t)
  else
    (true, { t with data1_ := maskedMerge t.data1_ v t.data1WriteMask_,
                    modified_ := true })

/-- Modelled from the spec: `writeRegister2` — filters the value through
`writeMask2`, re-derives the compare mask from the new value, marks the
trigger modified. -/
def writeData2 (w : Nat) (t : Trigger) (debugMode : Bool) (v : Nat) : Bool × Trigger :=
  let nv := (t.data2_ &&& complW w t.data2WriteMask_) ||| (v &&& t.data2WriteMask_)
  (true, { t with data2_ := nv, data2CompareMask_ := deriveCompareMask w nv,
                  modified_ := true })

/-- Modelled from the spec: `pokeRegister1` — raw overwrite bypassing the
write mask, filtered only by `pokeMask1`. -/
def pokeData1 (t : Trigger) (v : Data1) : Trigger :=
  { t with data1_ := maskedMerge t.data1_ v t.data1PokeMask_ }

/-- Modelled from the spec: `pokeRegister2` — raw overwrite filtered by
`pokeMask2`; the compare mask is re-derived since the compare value was
written. -/
def pokeData2 (w : Nat) (t : Trigger) (v : Nat) : Trigger :=
  let nv := (t.data2_ &&& complW w t.data2PokeMask_) ||| (v &&& t.data2PokeMask_)
  { t with data2_ := nv, data2CompareMask_ := deriveCompareMask w nv }

/-- Modelled from the spec: `pokeRegister3` — raw overwrite filtered by
`pokeMask3`. -/
def pokeData3 (t : Trigger) (v : Nat) : Trigger :=
  { t with data3_ := (t.data3_ &&& complW 64 t.data3PokeMask_) |||
                     (v &&& t.data3PokeMask_) }

/-- Modelled from the spec: `configRegister1` — installs the
reset/write-mask/poke-mask triple for register 1 and applies the reset
value. -/
def configData1 (t : Trigger) (reset : Data1) (wm pm : Data1Mask) : Trigger :=
  { t with data1Reset_ := reset, data1WriteMask_ := wm, data1PokeMask_ := pm,
           data1_ := reset }

/-- Modelled from the spec: `configRegister2`. -/
def configData2 (t : Trigger) (reset wm pm : Nat) : Trigger :=
  { t with data2Reset_ := reset, data2WriteMask_ := wm, data2PokeMask_ := pm,
           data2_ := reset }

/-- Modelled from the spec: `configRegister3`. -/
def configData3 (t : Trigger) (reset wm pm : Nat) : Trigger :=
  { t with data3Reset_ := reset, data3WriteMask_ := wm, data3PokeMask_ := pm,
           data3_ := reset }

/-- Modelled from the spec: `reset` restores the configured default
register values and clears the transient state. -/
def reset (w : Nat) (t : Trigger) : Trigger :=
  { t with data1_ := t.data1Reset_, data2_ := t.data2Reset_,
           data3_ := t.data3Reset_,
           data2CompareMask_ := deriveCompareMask w t.data2Reset_,
           hit_ := false, localHit_ := false, modified_ := false }

/-- Modelled from the spec: `tickCountdown` — decrements the instruction
counter of an `Icount` trigger, reporting true exactly when the counter
reaches zero; non-icount triggers never expire. -/
def instCountdown (t : Trigger) : Bool × Trigger :=
  if t.data1_.type_ = icountType && t.data1_.m_ then
    (t.counter_ == 1, { t with counter_ := t.counter_ - 1 })
  else (false, t)

/-- Core comparator `Trigger::doMatch` (Triggers.cpp lines 467-505),
dispatched on the raw match-mode field; unrecognised values fall through
to `false`. -/
def doMatch (w : Nat) (t : Trigger) (item : Nat) : Bool :=
  if t.data1_.match_ = matchEqual then item == t.data2_
  else if t.data1_.match_ = matchMasked then
    (item &&& t.data2CompareMask_) == (t.data2_ &&& t.data2CompareMask_)
  else if t.data1_.match_ = matchGE then decide (t.data2_ ≤ item)
  else if t.data1_.match_ = matchLT then decide (item < t.data2_)
  else if t.data1_.match_ = matchMaskHighEqualLow then
    let halfBitCount := w / 2
    let item2 := item &&& (t.data2_ >>> halfBitCount)
    ((item2 <<< halfBitCount) % 2 ^ w) == ((t.data2_ <<< halfBitCount) % 2 ^ w)
  else if t.data1_.match_ = matchMaskLowEqualHigh then
    let halfBitCount := w / 2
    let item2 := item &&& ((t.data2_ <<< halfBitCount) % 2 ^ w)
    (item2 >>> halfBitCount) == (t.data2_ >>> halfBitCount)
  else false

/-- `Trigger::matchLdStAddr` (Triggers.cpp lines 423-442). -/
def matchLdStAddr (w : Nat) (t : Trigger) (address timing : Nat)
    (isLoad : Bool) : Bool :=
  if t.data1_.type_ ≠ addrDataType then false
  else if !t.data1_.m_ then false
  else
    let isStore := !isLoad
    if t.data1_.timing_ = timing ∧ t.data1_.select_ = selMatchAddress ∧
        ((isLoad ∧ t.data1_.load_) ∨ (isStore ∧ t.data1_.store_)) then
      t.doMatch w address
    else false

/-- `Trigger::matchLdStData` (Triggers.cpp lines 445-464). -/
def matchLdStData (w : Nat) (t : Trigger) (value timing : Nat)
    (isLoad : Bool) : Bool :=
  if t.data1_.type_ ≠ addrDataType then false
  else if !t.data1_.m_ then false
  else
    let isStore := !isLoad
    if t.data1_.timing_ = timing ∧ t.data1_.select_ = selMatchData ∧
        ((isLoad ∧ t.data1_.load_) ∨ (isStore ∧ t.data1_.store_)) then
      t.doMatch w value
    else false

/-- `Trigger::matchInstAddr` (Triggers.cpp lines 508-526). -/
def matchInstAddr (w : Nat) (t : Trigger) (address timing : Nat) : Bool :=
  if t.data1_.type_ ≠ addrDataType then false
  else if !t.data1_.m_ then false
  else
    if t.data1_.timing_ = timing ∧ t.data1_.select_ = selMatchAddress ∧
        t.data1_.execute_ then
      t.doMatch w address
    else false

/-- `Trigger::matchInstOpcode` (Triggers.cpp lines 529-547). -/
def matchInstOpcode (w : Nat) (t : Trigger) (opcode timing : Nat) : Bool :=
  if t.data1_.type_ ≠ addrDataType then false
  else if !t.data1_.m_ then false
  else
    if t.data1_.timing_ = timing ∧ t.data1_.select_ = selMatchData ∧
        t.data1_.execute_ then
      t.doMatch w opcode
    else false

end Trigger

/-- The trigger bank `Triggers<URV>`: the owned trigger sequence and the
`chainPairs_` policy flag selecting the paired chaining algorithm. -/
structure TriggersState where
  triggers_ : List Trigger
  chainPairs_ : Bool
deriving DecidableEq

namespace TriggersState

/-- Number of triggers in the bank (`triggers_.size()`). -/
def size (st : TriggersState) : Nat := st.triggers_.length

/-- Read trigger `i` (`triggers_.at(i)`); out-of-range reads yield the
default trigger and are only used under an index guard. -/
def getT (st : TriggersState) (i : Nat) : Trigger :=
  st.triggers_.getD i defaultTrigger

/-- Replace trigger `i`; a no-op when `i` is out of range. -/
def setT (st : TriggersState) (i : Nat) (t : Trigger) : TriggersState :=
  { st with triggers_ := st.triggers_.set i t }

/-- Update trigger `i` in place. -/
def modifyT (st : TriggersState) (i : Nat) (f : Trigger → Trigger) : TriggersState :=
  st.setT i (f (st.getT i))

/-- Chain bit of trigger `i`. -/
def chainBit (st : TriggersState) (i : Nat) : Bool := (st.getT i).getChain

/-- Chain bounds of trigger `i`. -/
def boundsOf (st : TriggersState) (i : Nat) : Nat × Nat :=
  ((st.getT i).chainBegin_, (st.getT i).chainEnd_)

/-- `std::vector::resize`: truncate or extend with default triggers. -/
def resizeTriggers (st : TriggersState) (m : Nat) : TriggersState :=
  { st with triggers_ := st.triggers_.take m ++
      List.replicate (m - st.triggers_.length) defaultTrigger }

end TriggersState

/-- Apply `f` to the triggers at the listed indices in order (the inner
index loops of `Triggers.cpp`, with the loop's index sequence made
explicit as a list). -/
def applyRange (st : TriggersState) (f : Trigger → Trigger) :
    List Nat → TriggersState
  | [] => st
  | j :: rest => applyRange (st.modifyT j f) f rest

namespace Triggers

/-- Inner loop of `defineChainBounds` run mode: install bounds `[b, e)` on
every trigger of that range (`for (j = begin; j < end; j++) ...
setChainBounds(begin, end)`). -/
def assignBounds (st : TriggersState) (b e : Nat) : TriggersState :=
  applyRange st (fun t => t.setChainBounds b e) (List.range' b (e - b))

/-- Run-mode scan of `Triggers::defineChainBounds` (Triggers.cpp lines
404-419): walk the indices left to right; a trigger with a clear chain
bit terminates the current run `[b, i+1)`, whose bounds are assigned to
all of its members; the trailing run is closed at the array size `n`. -/
def chainRunGo (n : Nat) (st : TriggersState) (b : Nat) : List Nat → TriggersState
  | [] => assignBounds st b n
  | i :: rest =>
      if (st.getT i).getChain then chainRunGo n st b rest
      else chainRunGo n (assignBounds st b (i + 1)) (i + 1) rest

/-- Singleton-reset loop of the paired mode (`setChainBounds(i, i+1)` for
every `i`). -/
def singletonGo (st : TriggersState) : List Nat → TriggersState
  | [] => st
  | i :: rest => singletonGo (st.modifyT i (fun t => t.setChainBounds i (i + 1))) rest

/-- Pairing loop of the paired mode (Triggers.cpp lines 393-400): for each
even index `i`, if its chain bit is set and `i+1` exists, both `i` and
`i+1` receive bounds `[i, i+2)`. -/
def chainPairGo (n : Nat) (st : TriggersState) : List Nat → TriggersState
  | [] => st
  | i :: rest =>
      if (st.getT i).getChain ∧ i + 1 < n then
        chainPairGo n
          ((st.modifyT i (fun t => t.setChainBounds i (i + 2))).modifyT (i + 1)
            (fun t => t.setChainBounds i (i + 2))) rest
      else chainPairGo n st rest

/-- The even indices `0, 2, 4, ...` below `n` (the `i += 2` loop header). -/
def evenIndices (n : Nat) : List Nat := List.range' 0 ((n + 1) / 2) 2

/-- `Triggers::defineChainBounds` (Triggers.cpp lines 382-420). -/
def defineChainBounds (st : TriggersState) : TriggersState :=
  if st.chainPairs_ then
    chainPairGo st.size (singletonGo st (List.range st.size)) (evenIndices st.size)
  else chainRunGo st.size st 0 (List.range st.size)

/-- `Triggers<URV>::Triggers(count)` (Triggers.cpp lines 25-32): `count`
default triggers, each made a single-element chain. -/
def init (count : Nat) (chainPairs : Bool) : TriggersState :=
  singletonGo { triggers_ := List.replicate count defaultTrigger,
                chainPairs_ := chainPairs } (List.range count)

/-- `Triggers::readData1` (lines 35-44). -/
def readData1 (st : TriggersState) (trigger : Nat) : Option Data1 :=
  if trigger < st.size then some (st.getT trigger).readData1 else none

/-- `Triggers::readData2` (lines 47-56). -/
def readData2 (st : TriggersState) (trigger : Nat) : Option Nat :=
  if trigger < st.size then some (st.getT trigger).readData2 else none

/-- `Triggers::readData3` (lines 59-68). -/
def readData3 (st : TriggersState) (trigger : Nat) : Option Nat :=
  if trigger < st.size then some (st.getT trigger).readData3 else none

/-- `Triggers::writeData1` (lines 71-89): index-checked write of register
1; when the write is applied and flips the chain bit, the chain bounds
are recomputed. -/
def writeData1 (st : TriggersState) (trigIx : Nat) (debugMode : Bool)
    (value : Data1) : Bool × TriggersState :=
  if trigIx < st.size then
    let trig := st.getT trigIx
    let prevChain := trig.getChain
    let p := trig.writeData1 debugMode value
    if !p.fst then (false, st)
    else
      let st2 := st.setT trigIx p.snd
      let newChain := p.snd.getChain
      if prevChain ≠ newChain then (true, defineChainBounds st2)
      else (true, st2)
  else (false, st)

/-- `Triggers::writeData2` (lines 92-100). -/
def writeData2 (w : Nat) (st : TriggersState) (trigger : Nat)
    (debugMode : Bool) (value : Nat) : Bool × TriggersState :=
  if trigger < st.size then
    let p := (st.getT trigger).writeData2 w debugMode value
    (p.fst, st.setT trigger p.snd)
  else (false, st)

/-- `Triggers::writeData3` (lines 103-111): index-checked, then always
fails (register 3 writes are unsupported by design). -/
def writeData3 (st : TriggersState) (trigger : Nat) (debugMode : Bool)
    (value : Nat) : Bool × TriggersState :=
  if trigger < st.size then (false, st) else (false, st)

/-- Range loop setting the chain-wide hit flag (`Triggers.cpp` lines
135-136). -/
def setHitRange (st : TriggersState) (b e : Nat) : TriggersState :=
  applyRange st (fun t => t.setHit true) (List.range' b (e - b))

/-- `Triggers::updateChainHitBit` (lines 114-138): with `[b, e)` the chain
bounds of the initiating trigger, the chain hits exactly when every
member has its local hit set and every member's timing equals the
initiating trigger's; on a hit every member's `hit` bit is set. -/
def updateChainHitBit (st : TriggersState) (ix : Nat) : Bool × TriggersState :=
  let trigger := st.getT ix
  let timing := trigger.getTiming
  let b := trigger.chainBegin_
  let e := trigger.chainEnd_
  let chainHit := (List.range' b (e - b)).all fun i => (st.getT i).getLocalHit
  let uniformTiming := (List.range' b (e - b)).all fun i =>
    timing == (st.getT i).getTiming
  if chainHit && uniformTiming then (true, setHitRange st b e) else (false, st)

/-- Shared loop body of the four event-hit functions (the loops of lines
141-232 are textually identical up to the match predicate): skip unless
the trigger enters debug on hit or interrupts are enabled; skip unless
the match predicate holds; otherwise set the local hit and resolve the
chain, accumulating whether any chain resolved. -/
def hitLoopGo (pred : Trigger → Bool) (interruptEnabled : Bool)
    (st : TriggersState) (hit : Bool) : List Nat → Bool × TriggersState
  | [] => (hit, st)
  | i :: rest =>
      let trigger := st.getT i
      if !trigger.isEnterDebugOnHit && !interruptEnabled then
        hitLoopGo pred interruptEnabled st hit rest
      else if !(pred trigger) then hitLoopGo pred interruptEnabled st hit rest
      else
        let st2 := st.modifyT i fun t => t.setLocalHit true
        let p := updateChainHitBit st2 i
        hitLoopGo pred interruptEnabled p.snd (hit || p.fst) rest

/-- `Triggers::ldStAddrTriggerHit` (lines 141-161). -/
def ldStAddrTriggerHit (w : Nat) (st : TriggersState) (address timing : Nat)
    (isLoad interruptEnabled : Bool) : Bool × TriggersState :=
  hitLoopGo (fun t => t.matchLdStAddr w address timing isLoad)
    interruptEnabled st false (List.range st.size)

/-- `Triggers::ldStDataTriggerHit` (lines 164-185). -/
def ldStDataTriggerHit (w : Nat) (st : TriggersState) (value timing : Nat)
    (isLoad interruptEnabled : Bool) : Bool × TriggersState :=
  hitLoopGo (fun t => t.matchLdStData w value timing isLoad)
    interruptEnabled st false (List.range st.size)

/-- `Triggers::instAddrTriggerHit` (lines 188-208). -/
def instAddrTriggerHit (w : Nat) (st : TriggersState) (address timing : Nat)
    (interruptEnabled : Bool) : Bool × TriggersState :=
  hitLoopGo (fun t => t.matchInstAddr w address timing)
    interruptEnabled st false (List.range st.size)

/-- `Triggers::instOpcodeTriggerHit` (lines 211-232). -/
def instOpcodeTriggerHit (w : Nat) (st : TriggersState) (opcode timing : Nat)
    (interruptEnabled : Bool) : Bool × TriggersState :=
  hitLoopGo (fun t => t.matchInstOpcode w opcode timing)
    interruptEnabled st false (List.range st.size)

/-- Loop of `Triggers::icountTriggerHit` (lines 235-257): skip triggers
failing the interrupt gate and triggers modified by the current
instruction; otherwise tick the countdown (its decrement persists even
without a hit) and on expiry set both `hit` and `localHit`. -/
def icountGo (interruptEnabled : Bool) (st : TriggersState) (hit : Bool) :
    List Nat → Bool × TriggersState
  | [] => (hit, st)
  | i :: rest =>
      let trig := st.getT i
      if !trig.isEnterDebugOnHit && !interruptEnabled then
        icountGo interruptEnabled st hit rest
      else if trig.isModified then icountGo interruptEnabled st hit rest
      else
        let p := trig.instCountdown
        if !p.fst then icountGo interruptEnabled (st.setT i p.snd) hit rest
        else
          icountGo interruptEnabled
            (st.setT i ((p.snd.setHit true).setLocalHit true)) true rest

/-- `Triggers::icountTriggerHit` (lines 235-257). -/
def icountTriggerHit (interruptEnabled : Bool) (st : TriggersState) :
    Bool × TriggersState :=
  icountGo interruptEnabled st false (List.range st.size)

/-- `Triggers::config` (lines 260-278).  The source resizes whenever
`trigger <= triggers_.size()` and then accesses `triggers_.at(trigger)`;
an index that is still out of range at that point raises
`std::out_of_range`, modelled as `none`. -/
def config (w : Nat) (st : TriggersState) (trigger : Nat) (reset1 : Data1)
    (reset2 reset3 : Nat) (wm1 : Data1Mask) (wm2 wm3 : Nat)
    (pm1 : Data1Mask) (pm2 pm3 : Nat) : Option TriggersState :=
  let st1 := if trigger ≤ st.size then st.resizeTriggers (trigger + 1) else st
  if trigger < st1.size then
    let st2 := st1.modifyT trigger fun t =>
      let t1 := t.configData1 reset1 wm1 pm1
      let t2 := t1.configData2 reset2 wm2 pm2
      let t3 := t2.configData3 reset3 wm3 pm3
      (t3.writeData2 w true reset2).snd
    some (defineChainBounds st2)
  else none

/-- `Triggers::reset` (lines 281-288). -/
def reset (w : Nat) (st : TriggersState) : TriggersState :=
  defineChainBounds { st with triggers_ := st.triggers_.map (Trigger.reset w) }

/-- `Triggers::peek` (lines 292-300): the three register values. -/
def peek (st : TriggersState) (trigger : Nat) : Option (Data1 × Nat × Nat) :=
  if trigger < st.size then
    some ((st.getT trigger).data1_, (st.getT trigger).data2_,
      (st.getT trigger).data3_)
  else none

/-- `Triggers::peek` with masks (lines 303-314): registers, write masks
and poke masks. -/
def peekAll (st : TriggersState) (trigger : Nat) :
    Option ((Data1 × Nat × Nat) × (Data1Mask × Nat × Nat) × (Data1Mask × Nat × Nat)) :=
  if trigger < st.size then
    let t := st.getT trigger
    some ((t.data1_, t.data2_, t.data3_),
      (t.data1WriteMask_, t.data2WriteMask_, t.data3WriteMask_),
      (t.data1PokeMask_, t.data2PokeMask_, t.data3PokeMask_))
  else none

/-- `Triggers::poke` (lines 317-331): the three-register poke; note that
it performs the raw register overwrites without consulting the chain bit
and without recomputing the chain bounds. -/
def poke (w : Nat) (st : TriggersState) (trigger : Nat) (v1 : Data1)
    (v2 v3 : Nat) : Bool × TriggersState :=
  if trigger < st.size then
    (true, st.modifyT trigger fun t =>
      (((t.pokeData1 v1).pokeData2 w v2).pokeData3 v3))
  else (false, st)

/-- `Triggers::pokeData1` (lines 334-351): single-register poke of
register 1; recomputes the chain bounds when the poke flips the chain
bit. -/
def pokeData1 (st : TriggersState) (trigger : Nat) (val : Data1) :
    Bool × TriggersState :=
  if trigger < st.size then
    let trig := st.getT trigger
    let prevChain := trig.getChain
    let trig2 := trig.pokeData1 val
    let st2 := st.setT trigger trig2
    let newChain := trig2.getChain
    if prevChain ≠ newChain then (true, defineChainBounds st2)
    else (true, st2)
  else (false, st)

/-- `Triggers::pokeData2` (lines 354-365). -/
def pokeData2 (w : Nat) (st : TriggersState) (trigger : Nat) (val : Nat) :
    Bool × TriggersState :=
  if trigger < st.size then
    (true, st.modifyT trigger fun t => t.pokeData2 w val)
  else (false, st)

/-- `Triggers::pokeData3` (lines 368-379). -/
def pokeData3 (st : TriggersState) (trigger : Nat) (val : Nat) :
    Bool × TriggersState :=
  if trigger < st.size then
    (true, st.modifyT trigger fun t => t.pokeData3 val)
  else (false, st)

end Triggers

namespace Trigger

theorem getChain_setChainBounds (t : Trigger) (b e : Nat) :
    (t.setChainBounds b e).getChain = t.getChain := rfl

theorem data1_setChainBounds (t : Trigger) (b e : Nat) :
    (t.setChainBounds b e).data1_ = t.data1_ := rfl

theorem chainBegin_setChainBounds (t : Trigger) (b e : Nat) :
    (t.setChainBounds b e).chainBegin_ = b := rfl

theorem chainEnd_setChainBounds (t : Trigger) (b e : Nat) :
    (t.setChainBounds b e).chainEnd_ = e := rfl

theorem localHit_setChainBounds (t : Trigger) (b e : Nat) :
    (t.setChainBounds b e).localHit_ = t.localHit_ := rfl

theorem data1_setHit (t : Trigger) (f : Bool) : (t.setHit f).data1_ = t.data1_ := rfl

theorem localHit_setHit (t : Trigger) (f : Bool) :
    (t.setHit f).localHit_ = t.localHit_ := rfl

theorem chainBegin_setHit (t : Trigger) (f : Bool) :
    (t.setHit f).chainBegin_ = t.chainBegin_ := rfl

theorem chainEnd_setHit (t : Trigger) (f : Bool) :
    (t.setHit f).chainEnd_ = t.chainEnd_ := rfl

theorem data1_setLocalHit (t : Trigger) (f : Bool) :
    (t.setLocalHit f).data1_ = t.data1_ := rfl

theorem hit_setLocalHit (t : Trigger) (f : Bool) :
    (t.setLocalHit f).hit_ = t.hit_ := rfl

theorem localHit_setLocalHit (t : Trigger) (f : Bool) :
    (t.setLocalHit f).localHit_ = f := rfl

theorem chainBegin_setLocalHit (t : Trigger) (f : Bool) :
    (t.setLocalHit f).chainBegin_ = t.chainBegin_ := rfl

theorem chainEnd_setLocalHit (t : Trigger) (f : Bool) :
    (t.setLocalHit f).chainEnd_ = t.chainEnd_ := rfl

end Trigger

namespace TriggersState

theorem size_setT (st : TriggersState) (i : Nat) (t : Trigger) :
    (st.setT i t).size = st.size := by
  simp [setT, size]

theorem size_modifyT (st : TriggersState) (i : Nat) (f : Trigger → Trigger) :
    (st.modifyT i f).size = st.size := by
  simp [modifyT, size_setT]

theorem getT_oob (st : TriggersState) (i : Nat) (h : st.size ≤ i) :
    st.getT i = defaultTrigger := by
  unfold getT
  rw [List.getD_eq_getElem?_getD, List.getElem?_eq_none h]
  rfl

theorem getT_setT (st : TriggersState) (i : Nat) (t : Trigger) (j : Nat) :
    (st.setT i t).getT j = if i = j ∧ j < st.size then t else st.getT j := by
  unfold getT setT size at *
  simp only [List.getD_eq_getElem?_getD]
  by_cases hij : i = j
  · subst hij
    rcases Nat.lt_or_ge i st.triggers_.length with h | h
    · simp [List.getElem?_set_self', List.getElem?_eq_getElem h, h]
    · rw [List.getElem?_set_self', List.getElem?_eq_none h]
      simp [Nat.not_lt.mpr h]
  · rw [List.getElem?_set_ne hij]
    simp [hij]

theorem getT_modifyT (st : TriggersState) (i : Nat) (f : Trigger → Trigger)
    (j : Nat) :
    (st.modifyT i f).getT j =
      if i = j ∧ j < st.size then f (st.getT j) else st.getT j := by
  unfold modifyT
  rw [getT_setT]
  by_cases hij : i = j
  · subst hij
    rfl
  · simp [hij]

end TriggersState

namespace Triggers

theorem size_applyRange (f : Trigger → Trigger) (l : List Nat)
    (st : TriggersState) : (applyRange st f l).size = st.size := by
  induction l generalizing st with
  | nil => rfl
  | cons i rest ih => rw [applyRange, ih, TriggersState.size_modifyT]

theorem getT_applyRange (f : Trigger → Trigger) (l : List Nat)
    (hnd : l.Nodup) (st : TriggersState) (j : Nat) :
    (applyRange st f l).getT j =
      if j ∈ l ∧ j < st.size then f (st.getT j) else st.getT j := by
  induction l generalizing st with
  | nil => simp [applyRange]
  | cons i rest ih =>
      rw [applyRange, ih (List.Nodup.of_cons hnd), TriggersState.size_modifyT,
        TriggersState.getT_modifyT]
      have hni : i ∉ rest := (List.nodup_cons.mp hnd).1
      by_cases hmem : j ∈ rest
      · have hij : ¬(i = j) := fun h => hni (h ▸ hmem)
        simp [hmem, hij, List.mem_cons]
      · by_cases hij : i = j
        · subst hij
          simp [hmem, List.mem_cons]
        · simp [hmem, hij, List.mem_cons, Ne.symm]

end Triggers

/-- Copy of a trigger with the chain bounds zeroed; equality of
`clearBounds` values states that two triggers agree on everything except
their chain bounds. -/
def Trigger.clearBounds (t : Trigger) : Trigger :=
  { t with chainBegin_ := 0, chainEnd_ := 0 }

theorem Trigger.getChain_eq_of_clearBounds {a b : Trigger}
    (h : a.clearBounds = b.clearBounds) : a.getChain = b.getChain :=
  congrArg (fun t => t.data1_.chain_) h

theorem Trigger.data1_eq_of_clearBounds {a b : Trigger}
    (h : a.clearBounds = b.clearBounds) : a.data1_ = b.data1_ :=
  congrArg (fun t => t.data1_) h

theorem Trigger.localHit_eq_of_clearBounds {a b : Trigger}
    (h : a.clearBounds = b.clearBounds) : a.localHit_ = b.localHit_ :=
  congrArg (fun t => t.localHit_) h

theorem Trigger.clearBounds_setChainBounds (t : Trigger) (b e : Nat) :
    (t.setChainBounds b e).clearBounds = t.clearBounds := rfl

/-- Run-structure property of the chain bounds stored at index `j`: the
bounds form a half-open range containing `j` and contained in the bank,
every member of the range stores the same bounds, all members but the
last have their chain bit set, the range ends at the bank boundary or at
a clear chain bit, and begins at 0 or right after a clear chain bit. -/
def runPropsAt (st : TriggersState) (j : Nat) : Prop :=
  (st.getT j).chainBegin_ ≤ j ∧ j < (st.getT j).chainEnd_ ∧
  (st.getT j).chainEnd_ ≤ st.size ∧
  (∀ k, (st.getT j).chainBegin_ ≤ k → k < (st.getT j).chainEnd_ →
    st.boundsOf k = st.boundsOf j) ∧
  (∀ k, (st.getT j).chainBegin_ ≤ k → k + 1 < (st.getT j).chainEnd_ →
    st.chainBit k = true) ∧
  ((st.getT j).chainEnd_ = st.size ∨ st.chainBit ((st.getT j).chainEnd_ - 1) = false) ∧
  ((st.getT j).chainBegin_ = 0 ∨ st.chainBit ((st.getT j).chainBegin_ - 1) = false)

/-- Chain-coherence: every member of any stored chain range holds the
same `[begin, end)` bounds. -/
def boundsCoherent (st : TriggersState) : Prop :=
  ∀ i, i < st.size → ∀ k, (st.getT i).chainBegin_ ≤ k →
    k < (st.getT i).chainEnd_ → st.boundsOf k = st.boundsOf i

namespace Triggers

theorem size_assignBounds (st : TriggersState) (b e : Nat) :
    (assignBounds st b e).size = st.size :=
  size_applyRange ..

theorem getT_assignBounds (st : TriggersState) (b e j : Nat) (hbe : b ≤ e) :
    (assignBounds st b e).getT j =
      if b ≤ j ∧ j < e ∧ j < st.size then (st.getT j).setChainBounds b e
      else st.getT j := by
  rw [assignBounds, getT_applyRange _ _ (List.nodup_range' ..)]
  have hmem : j ∈ List.range' b (e - b) ↔ b ≤ j ∧ j < e := by
    rw [List.mem_range'_1]
    omega
  simp only [hmem, and_assoc]

theorem clearBounds_getT_assignBounds (st : TriggersState) (b e j : Nat)
    (hbe : b ≤ e) :
    ((assignBounds st b e).getT j).clearBounds = (st.getT j).clearBounds := by
  rw [getT_assignBounds st b e j hbe]
  split
  · rw [Trigger.clearBounds_setChainBounds]
  · rfl

theorem chainBit_assignBounds (st : TriggersState) (b e j : Nat) (hbe : b ≤ e) :
    (assignBounds st b e).chainBit j = st.chainBit j :=
  Trigger.getChain_eq_of_clearBounds (clearBounds_getT_assignBounds st b e j hbe)

/-- Characterisation of the run-mode scan: starting from index `i` with
open run begin `b`, the scan leaves indices below `b` untouched, changes
only chain bounds, and establishes the run structure on `[b, size)`. -/
theorem chainRunGo_spec (len : Nat) :
    ∀ (st : TriggersState) (i b : Nat),
      i + len = st.size → b ≤ i →
      (∀ k, b ≤ k → k < i → st.chainBit k = true) →
      (b = 0 ∨ st.chainBit (b - 1) = false) →
      (chainRunGo st.size st b (List.range' i len)).size = st.size ∧
      (∀ j, ((chainRunGo st.size st b (List.range' i len)).getT j).clearBounds
          = (st.getT j).clearBounds) ∧
      (∀ j, j < b → (chainRunGo st.size st b (List.range' i len)).getT j = st.getT j) ∧
      (∀ j, b ≤ j → j < st.size →
        runPropsAt (chainRunGo st.size st b (List.range' i len)) j) := by
  induction len with
  | zero =>
      intro st i b hi hb hbits hstart
      have hieq : i = st.size := by omega
      have hbe : b ≤ st.size := by omega
      simp only [List.range']
      rw [chainRunGo]
      have hsz := size_assignBounds st b st.size
      refine ⟨hsz, fun j => clearBounds_getT_assignBounds st b st.size j hbe, ?_, ?_⟩
      · intro j hj
        rw [getT_assignBounds st b st.size j hbe]
        have hno : ¬(b ≤ j ∧ j < st.size ∧ j < st.size) := by omega
        rw [if_neg hno]
      · intro j hbj hjn
        have hget : ∀ k, b ≤ k → k < st.size →
            (assignBounds st b st.size).getT k = (st.getT k).setChainBounds b st.size := by
          intro k h1 h2
          rw [getT_assignBounds st b st.size k hbe]
          rw [if_pos ⟨h1, h2, h2⟩]
        have hj := hget j hbj hjn
        unfold runPropsAt
        rw [hj]
        simp only [Trigger.chainBegin_setChainBounds, Trigger.chainEnd_setChainBounds]
        refine ⟨hbj, hjn, hsz.ge, ?_, ?_, ?_, ?_⟩
        · intro k h1 h2
          unfold TriggersState.boundsOf
          rw [hget k h1 h2, hj]
          rfl
        · intro k h1 h2
          rw [chainBit_assignBounds st b st.size k hbe]
          exact hbits k h1 (by omega)
        · exact Or.inl hsz.symm
        · rcases hstart with h | h
          · exact Or.inl h
          · exact Or.inr ((chainBit_assignBounds st b st.size (b - 1) hbe).trans h)
  | succ m ih =>
      intro st i b hi hb hbits hstart
      have hin : i < st.size := by omega
      rw [List.range'_succ, chainRunGo]
      by_cases hc : (st.getT i).getChain
      · simp only [hc, if_true]
        exact ih st (i + 1) b (by omega) (by omega)
          (fun k h1 h2 => by
            rcases Nat.lt_or_ge k i with h | h
            · exact hbits k h1 h
            · have : k = i := by omega
              subst this
              exact hc)
          hstart
      · simp only [hc, if_false, Bool.false_eq_true]
        set st2 := assignBounds st b (i + 1) with hst2
        have hbe1 : b ≤ i + 1 := by omega
        have hsz2 : st2.size = st.size := size_assignBounds st b (i + 1)
        have hcb2 : ∀ j, (st2.getT j).clearBounds = (st.getT j).clearBounds :=
          fun j => clearBounds_getT_assignBounds st b (i + 1) j hbe1
        have hbit2 : ∀ j, st2.chainBit j = st.chainBit j :=
          fun j => Trigger.getChain_eq_of_clearBounds (hcb2 j)
        have hcfalse : st.chainBit i = false := by
          have h2 : (st.getT i).getChain = false := by simpa using hc
          exact h2
        have hIH := ih st2 (i + 1) (i + 1) (by omega) (le_refl _)
          (fun k h1 h2 => by omega)
          (Or.inr (by rw [hbit2]; simpa using hcfalse))
        rw [hsz2] at hIH
        obtain ⟨ihsz, ihcb, ihlow, ihprops⟩ := hIH
        have hget2 : ∀ k, b ≤ k → k < i + 1 →
            st2.getT k = (st.getT k).setChainBounds b (i + 1) := by
          intro k h1 h2
          have hks : k < st.size := by omega
          rw [hst2, getT_assignBounds st b (i + 1) k hbe1]
          rw [if_pos ⟨h1, h2, hks⟩]
        have hlow2 : ∀ j, j < b → st2.getT j = st.getT j := by
          intro j hj
          rw [hst2, getT_assignBounds st b (i + 1) j hbe1]
          have hno : ¬(b ≤ j ∧ j < i + 1 ∧ j < st.size) := by omega
          rw [if_neg hno]
        refine ⟨ihsz, ?_, ?_, ?_⟩
        · intro j
          exact (ihcb j).trans (hcb2 j)
        · intro j hj
          exact (ihlow j (by omega)).trans (hlow2 j hj)
        · intro j hbj hjn
          rcases Nat.lt_or_ge j (i + 1) with hj1 | hj1
          · -- j lies in the freshly closed run [b, i+1)
            set r := chainRunGo st.size st2 (i + 1) (List.range' (i + 1) m) with hr
            have hrj : r.getT j = (st.getT j).setChainBounds b (i + 1) := by
              rw [ihlow j hj1]
              exact hget2 j hbj hj1
            have hrbit : ∀ k, r.chainBit k = st.chainBit k := by
              intro k
              exact (Trigger.getChain_eq_of_clearBounds ((ihcb k).trans (hcb2 k)))
            unfold runPropsAt
            rw [hrj]
            simp only [Trigger.chainBegin_setChainBounds, Trigger.chainEnd_setChainBounds]
            refine ⟨hbj, hj1, by omega, ?_, ?_, ?_, ?_⟩
            · intro k h1 h2
              unfold TriggersState.boundsOf
              have hrk : r.getT k = (st.getT k).setChainBounds b (i + 1) := by
                rw [ihlow k h2]
                exact hget2 k h1 h2
              rw [hrk, hrj]
              rfl
            · intro k h1 h2
              rw [hrbit]
              exact hbits k h1 (by omega)
            · refine Or.inr ?_
              rw [hrbit]
              simpa using hcfalse
            · rcases hstart with h | h
              · exact Or.inl h
              · exact Or.inr (by rw [hrbit]; exact h)
          · exact ihprops j hj1 hjn

end Triggers

namespace Triggers

theorem size_singletonGo (l : List Nat) :
    ∀ st : TriggersState, (singletonGo st l).size = st.size := by
  induction l with
  | nil => intro st; rfl
  | cons i rest ih =>
      intro st
      rw [singletonGo, ih, TriggersState.size_modifyT]

theorem getT_singletonGo (l : List Nat) (hnd : l.Nodup) :
    ∀ (st : TriggersState) (j : Nat),
      (singletonGo st l).getT j =
        if j ∈ l ∧ j < st.size then (st.getT j).setChainBounds j (j + 1)
        else st.getT j := by
  induction l with
  | nil => intro st j; simp [singletonGo]
  | cons i rest ih =>
      intro st j
      rw [singletonGo, ih (List.Nodup.of_cons hnd), TriggersState.size_modifyT,
        TriggersState.getT_modifyT]
      have hni : i ∉ rest := (List.nodup_cons.mp hnd).1
      by_cases hmem : j ∈ rest
      · have hij : ¬(i = j) := fun h => hni (h ▸ hmem)
        simp [hmem, hij, List.mem_cons]
      · by_cases hij : i = j
        · subst hij
          simp [hmem, List.mem_cons]
        · simp [hmem, hij, List.mem_cons, Ne.symm]

theorem size_chainPairGo (n : Nat) (l : List Nat) :
    ∀ st : TriggersState, (chainPairGo n st l).size = st.size := by
  induction l with
  | nil => intro st; rfl
  | cons i rest ih =>
      intro st
      rw [chainPairGo]
      split
      · rw [ih, TriggersState.size_modifyT, TriggersState.size_modifyT]
      · rw [ih]

theorem getT_chainPairGo_even (n : Nat) (l : List Nat) (hnd : l.Nodup)
    (hev : ∀ x ∈ l, x % 2 = 0) :
    ∀ (st : TriggersState) (j : Nat), j % 2 = 0 →
      (chainPairGo n st l).getT j =
        if j ∈ l ∧ st.chainBit j = true ∧ j + 1 < n ∧ j < st.size then
          (st.getT j).setChainBounds j (j + 2)
        else st.getT j := by
  induction l with
  | nil => intro st j hj; simp [chainPairGo]
  | cons i rest ih =>
      intro st j hj
      have hie : i % 2 = 0 := hev i (List.mem_cons_self _ _)
      have hevr : ∀ x ∈ rest, x % 2 = 0 :=
        fun x hx => hev x (List.mem_cons_of_mem i hx)
      have hndr := List.Nodup.of_cons hnd
      have hni : i ∉ rest := (List.nodup_cons.mp hnd).1
      rw [chainPairGo]
      by_cases hcond : (st.getT i).getChain = true ∧ i + 1 < n
      · rw [if_pos hcond]
        set st2 := (st.modifyT i fun t => t.setChainBounds i (i + 2)).modifyT (i + 1)
          (fun t => t.setChainBounds i (i + 2)) with hst2
        have hsz2 : st2.size = st.size := by
          rw [hst2, TriggersState.size_modifyT, TriggersState.size_modifyT]
        have hgetT2 : ∀ k, st2.getT k =
            if (i = k ∨ i + 1 = k) ∧ k < st.size then
              (st.getT k).setChainBounds i (i + 2)
            else st.getT k := by
          intro k
          rw [hst2, TriggersState.getT_modifyT, TriggersState.size_modifyT,
            TriggersState.getT_modifyT]
          split_ifs <;> first | rfl | (exfalso; omega)
        have hbit2 : ∀ k, st2.chainBit k = st.chainBit k := by
          intro k
          unfold TriggersState.chainBit
          rw [hgetT2 k]
          split
          · rfl
          · rfl
        rw [ih hndr hevr st2 j hj, hsz2]
        by_cases hji : j = i
        · subst hji
          have hnotr : ¬(j ∈ rest ∧ st2.chainBit j = true ∧ j + 1 < n ∧ j < st.size) :=
            fun hc => hni hc.1
          rw [if_neg hnotr, hgetT2 j]
          by_cases hks : j < st.size
          · rw [if_pos ⟨Or.inl rfl, hks⟩,
              if_pos ⟨List.mem_cons_self _ _, hcond.1, hcond.2, hks⟩]
          · rw [if_neg (fun hc => hks hc.2),
              if_neg (fun hc => hks hc.2.2.2)]
        · have hji1 : ¬(i + 1 = j) := by omega
          have hgj : st2.getT j = st.getT j := by
            rw [hgetT2 j, if_neg (fun hc => by
              rcases hc.1 with h | h
              · exact hji h.symm
              · exact hji1 h)]
          rw [hbit2, hgj]
          by_cases hcnd : j ∈ rest ∧ st.chainBit j = true ∧ j + 1 < n ∧ j < st.size
          · rw [if_pos hcnd, if_pos ⟨List.mem_cons_of_mem i hcnd.1, hcnd.2⟩]
          · rw [if_neg hcnd, if_neg (fun hc => hcnd
              ⟨(List.mem_cons.mp hc.1).resolve_left (fun h => hji h), hc.2⟩)]
      · rw [if_neg hcond]
        rw [ih hndr hevr st j hj]
        by_cases hji : j = i
        · subst hji
          have h1 : ¬(j ∈ rest ∧ st.chainBit j = true ∧ j + 1 < n ∧ j < st.size) :=
            fun hc => hni hc.1
          have h2 : ¬(j ∈ j :: rest ∧ st.chainBit j = true ∧ j + 1 < n ∧ j < st.size) :=
            fun hc => hcond ⟨hc.2.1, hc.2.2.1⟩
          rw [if_neg h1, if_neg h2]
        · by_cases hcnd : j ∈ rest ∧ st.chainBit j = true ∧ j + 1 < n ∧ j < st.size
          · rw [if_pos hcnd, if_pos ⟨List.mem_cons_of_mem i hcnd.1, hcnd.2⟩]
          · rw [if_neg hcnd, if_neg (fun hc => hcnd
              ⟨(List.mem_cons.mp hc.1).resolve_left (fun h => hji h), hc.2⟩)]

theorem getT_chainPairGo_odd (n : Nat) (l : List Nat) (hnd : l.Nodup)
    (hev : ∀ x ∈ l, x % 2 = 0) :
    ∀ (st : TriggersState) (j : Nat), j % 2 = 1 →
      (chainPairGo n st l).getT j =
        if (j - 1) ∈ l ∧ 1 ≤ j ∧ st.chainBit (j - 1) = true ∧ j < n ∧ j < st.size then
          (st.getT j).setChainBounds (j - 1) (j + 1)
        else st.getT j := by
  induction l with
  | nil => intro st j hj; simp [chainPairGo]
  | cons i rest ih =>
      intro st j hj
      have hie : i % 2 = 0 := hev i (List.mem_cons_self _ _)
      have hevr : ∀ x ∈ rest, x % 2 = 0 :=
        fun x hx => hev x (List.mem_cons_of_mem i hx)
      have hndr := List.Nodup.of_cons hnd
      have hni : i ∉ rest := (List.nodup_cons.mp hnd).1
      have hj1 : 1 ≤ j := by omega
      rw [chainPairGo]
      by_cases hcond : (st.getT i).getChain = true ∧ i + 1 < n
      · rw [if_pos hcond]
        set st2 := (st.modifyT i fun t => t.setChainBounds i (i + 2)).modifyT (i + 1)
          (fun t => t.setChainBounds i (i + 2)) with hst2
        have hsz2 : st2.size = st.size := by
          rw [hst2, TriggersState.size_modifyT, TriggersState.size_modifyT]
        have hgetT2 : ∀ k, st2.getT k =
            if (i = k ∨ i + 1 = k) ∧ k < st.size then
              (st.getT k).setChainBounds i (i + 2)
            else st.getT k := by
          intro k
          rw [hst2, TriggersState.getT_modifyT, TriggersState.size_modifyT,
            TriggersState.getT_modifyT]
          split_ifs <;> first | rfl | (exfalso; omega)
        have hbit2 : ∀ k, st2.chainBit k = st.chainBit k := by
          intro k
          unfold TriggersState.chainBit
          rw [hgetT2 k]
          split
          · rfl
          · rfl
        rw [ih hndr hevr st2 j hj, hsz2]
        by_cases hji : j = i + 1
        · have hjm : j - 1 = i := by omega
          have hnotr : ¬(j - 1 ∈ rest ∧ 1 ≤ j ∧ st2.chainBit (j - 1) = true ∧
              j < n ∧ j < st.size) := fun hc => hni (hjm ▸ hc.1)
          rw [if_neg hnotr, hgetT2 j]
          by_cases hks : j < st.size
          · rw [if_pos ⟨Or.inr hji.symm, hks⟩,
              if_pos ⟨hjm ▸ List.mem_cons_self i rest, hj1,
                hjm ▸ hcond.1, by omega, hks⟩]
            have e1 : j - 1 = i := hjm
            have e2 : j + 1 = i + 2 := by omega
            rw [e1, e2]
          · rw [if_neg (fun hc => hks hc.2),
              if_neg (fun hc => hks hc.2.2.2.2)]
        · have hji0 : ¬(i = j) := by omega
          have hgj : st2.getT j = st.getT j := by
            rw [hgetT2 j, if_neg (fun hc => by
              rcases hc.1 with h | h
              · exact hji0 h
              · exact hji h.symm)]
          have hmiff : j - 1 ∈ i :: rest ↔ j - 1 ∈ rest := by
            rw [List.mem_cons]
            constructor
            · rintro (h | h)
              · omega
              · exact h
            · exact Or.inr
          rw [hbit2, hgj]
          by_cases hcnd : j - 1 ∈ rest ∧ 1 ≤ j ∧ st.chainBit (j - 1) = true ∧
              j < n ∧ j < st.size
          · rw [if_pos hcnd, if_pos ⟨hmiff.mpr hcnd.1, hcnd.2⟩]
          · rw [if_neg hcnd, if_neg (fun hc => hcnd ⟨hmiff.mp hc.1, hc.2⟩)]
      · rw [if_neg hcond]
        rw [ih hndr hevr st j hj]
        by_cases hji : j = i + 1
        · have hjm : j - 1 = i := by omega
          have h1 : ¬(j - 1 ∈ rest ∧ 1 ≤ j ∧ st.chainBit (j - 1) = true ∧
              j < n ∧ j < st.size) := fun hc => hni (hjm ▸ hc.1)
          have h2 : ¬(j - 1 ∈ i :: rest ∧ 1 ≤ j ∧ st.chainBit (j - 1) = true ∧
              j < n ∧ j < st.size) := by
            intro hc
            refine hcond ⟨?_, by omega⟩
            have := hc.2.2.1
            rw [hjm] at this
            exact this
          rw [if_neg h1, if_neg h2]
        · have hmiff : j - 1 ∈ i :: rest ↔ j - 1 ∈ rest := by
            rw [List.mem_cons]
            constructor
            · rintro (h | h)
              · omega
              · exact h
            · exact Or.inr
          by_cases hcnd : j - 1 ∈ rest ∧ 1 ≤ j ∧ st.chainBit (j - 1) = true ∧
              j < n ∧ j < st.size
          · rw [if_pos hcnd, if_pos ⟨hmiff.mpr hcnd.1, hcnd.2⟩]
          · rw [if_neg hcnd, if_neg (fun hc => hcnd ⟨hmiff.mp hc.1, hc.2⟩)]

end Triggers

namespace Triggers

theorem mem_evenIndices (n j : Nat) : j ∈ evenIndices n ↔ j % 2 = 0 ∧ j < n := by
  rw [evenIndices, List.mem_range']
  constructor
  · rintro ⟨k, hk, rfl⟩
    omega
  · intro ⟨h1, h2⟩
    exact ⟨j / 2, by omega, by omega⟩

theorem nodup_evenIndices (n : Nat) : (evenIndices n).Nodup :=
  List.nodup_range' 0 ((n + 1) / 2) 2 (by omega)

theorem even_of_mem_evenIndices (n : Nat) :
    ∀ x ∈ evenIndices n, x % 2 = 0 :=
  fun x hx => ((mem_evenIndices n x).mp hx).1

/-- Paired-mode closed form of `defineChainBounds`: a pair `[j, j+2)` is
installed exactly on an even `j` whose chain bit is set with `j+1` in
range (covering both members); every other trigger is a singleton. -/
theorem defineChainBounds_paired (st : TriggersState) (h : st.chainPairs_ = true) :
    (defineChainBounds st).size = st.size ∧
    (∀ j, ((defineChainBounds st).getT j).clearBounds = (st.getT j).clearBounds) ∧
    (∀ j, j < st.size →
      (defineChainBounds st).boundsOf j =
        if j % 2 = 0 then
          (if st.chainBit j = true ∧ j + 1 < st.size then (j, j + 2) else (j, j + 1))
        else
          (if st.chainBit (j - 1) = true then (j - 1, j + 1) else (j, j + 1))) := by
  unfold defineChainBounds
  rw [if_pos h]
  set st1 := singletonGo st (List.range st.size) with hst1
  have hs1 : st1.size = st.size := size_singletonGo _ st
  have hget1 : ∀ j, st1.getT j =
      if j < st.size then (st.getT j).setChainBounds j (j + 1) else st.getT j := by
    intro j
    rw [hst1, getT_singletonGo _ (List.nodup_range st.size) st j]
    by_cases hj : j < st.size
    · rw [if_pos ⟨List.mem_range.mpr hj, hj⟩, if_pos hj]
    · rw [if_neg (fun hc => hj hc.2), if_neg hj]
  have hclear1 : ∀ j, (st1.getT j).clearBounds = (st.getT j).clearBounds := by
    intro j
    rw [hget1 j]
    split
    · rfl
    · rfl
  have hbit1 : ∀ j, st1.chainBit j = st.chainBit j :=
    fun j => Trigger.getChain_eq_of_clearBounds (hclear1 j)
  have hnd := nodup_evenIndices st.size
  have hev := even_of_mem_evenIndices st.size
  refine ⟨?_, ?_, ?_⟩
  · rw [size_chainPairGo, hs1]
  · intro j
    rcases Nat.mod_two_eq_zero_or_one j with hp | hp
    · rw [getT_chainPairGo_even st.size _ hnd hev st1 j hp]
      split
      · rw [Trigger.clearBounds_setChainBounds]
        exact hclear1 j
      · exact hclear1 j
    · rw [getT_chainPairGo_odd st.size _ hnd hev st1 j hp]
      split
      · rw [Trigger.clearBounds_setChainBounds]
        exact hclear1 j
      · exact hclear1 j
  · intro j hj
    rcases Nat.mod_two_eq_zero_or_one j with hp | hp
    · rw [if_pos hp]
      unfold TriggersState.boundsOf
      rw [getT_chainPairGo_even st.size _ hnd hev st1 j hp]
      by_cases hc : st.chainBit j = true ∧ j + 1 < st.size
      · rw [if_pos ⟨(mem_evenIndices st.size j).mpr ⟨hp, hj⟩,
          (hbit1 j).trans hc.1, hc.2, by rw [hs1]; exact hj⟩, if_pos hc]
        rfl
      · rw [if_neg ?hno, if_neg hc, hget1 j, if_pos hj]
        · rfl
        case hno =>
          intro hcc
          exact hc ⟨(hbit1 j).symm.trans hcc.2.1, hcc.2.2.1⟩
    · rw [if_neg (by omega)]
      unfold TriggersState.boundsOf
      rw [getT_chainPairGo_odd st.size _ hnd hev st1 j hp]
      by_cases hc : st.chainBit (j - 1) = true
      · rw [if_pos ⟨(mem_evenIndices st.size (j - 1)).mpr ⟨by omega, by omega⟩,
          by omega, (hbit1 (j - 1)).trans hc, hj, by rw [hs1]; exact hj⟩, if_pos hc]
        rfl
      · rw [if_neg ?hno2, if_neg hc, hget1 j, if_pos hj]
        · rfl
        case hno2 =>
          intro hcc
          exact hc ((hbit1 (j - 1)).symm.trans hcc.2.2.1)

/-- Run-mode characterisation of `defineChainBounds`: all chain bounds
satisfy the run structure. -/
theorem defineChainBounds_runMode (st : TriggersState) (h : st.chainPairs_ = false) :
    (defineChainBounds st).size = st.size ∧
    (∀ j, ((defineChainBounds st).getT j).clearBounds = (st.getT j).clearBounds) ∧
    (∀ j, j < st.size → runPropsAt (defineChainBounds st) j) := by
  unfold defineChainBounds
  rw [if_neg (by rw [h]; exact Bool.false_ne_true)]
  rw [List.range_eq_range']
  have hmain := chainRunGo_spec st.size st 0 0 (by omega) (Nat.zero_le 0)
    (fun k h1 h2 => absurd h2 (by omega)) (Or.inl rfl)
  exact ⟨hmain.1, hmain.2.1, fun j hj => hmain.2.2.2 j (Nat.zero_le j) hj⟩

/-- After any chain-bounds recomputation, the stored bounds are coherent:
every member of any stored chain range holds identical bounds. -/
theorem defineChainBounds_coherent (st : TriggersState) :
    boundsCoherent (defineChainBounds st) := by
  by_cases h : st.chainPairs_ = true
  · obtain ⟨hsz, hclear, hbof⟩ := defineChainBounds_paired st h
    intro i hi k h1 h2
    rw [hsz] at hi
    rcases Nat.mod_two_eq_zero_or_one i with hp | hp
    · by_cases hc : st.chainBit i = true ∧ i + 1 < st.size
      · have hbi : (defineChainBounds st).boundsOf i = (i, i + 2) := by
          rw [hbof i hi, if_pos hp, if_pos hc]
        have hbeg : ((defineChainBounds st).getT i).chainBegin_ = i :=
          congrArg Prod.fst hbi
        have hend : ((defineChainBounds st).getT i).chainEnd_ = i + 2 :=
          congrArg Prod.snd hbi
        rw [hbeg] at h1
        rw [hend] at h2
        rcases Nat.lt_or_ge k (i + 1) with hk | hk
        · have : k = i := by omega
          rw [this]
        · have hk1 : k = i + 1 := by omega
          subst hk1
          have hodd : (i + 1) % 2 = 1 := by omega
          have hbk : (defineChainBounds st).boundsOf (i + 1) = (i, i + 2) := by
            rw [hbof (i + 1) hc.2, if_neg (by omega)]
            have e1 : i + 1 - 1 = i := by omega
            rw [e1, if_pos hc.1]
          rw [hbk, hbi]
      · have hbi : (defineChainBounds st).boundsOf i = (i, i + 1) := by
          rw [hbof i hi, if_pos hp, if_neg hc]
        have hbeg : ((defineChainBounds st).getT i).chainBegin_ = i :=
          congrArg Prod.fst hbi
        have hend : ((defineChainBounds st).getT i).chainEnd_ = i + 1 :=
          congrArg Prod.snd hbi
        rw [hbeg] at h1
        rw [hend] at h2
        have : k = i := by omega
        rw [this]
    · by_cases hc : st.chainBit (i - 1) = true
      · have hbi : (defineChainBounds st).boundsOf i = (i - 1, i + 1) := by
          rw [hbof i hi, if_neg (by omega), if_pos hc]
        have hbeg : ((defineChainBounds st).getT i).chainBegin_ = i - 1 :=
          congrArg Prod.fst hbi
        have hend : ((defineChainBounds st).getT i).chainEnd_ = i + 1 :=
          congrArg Prod.snd hbi
        rw [hbeg] at h1
        rw [hend] at h2
        rcases Nat.lt_or_ge k i with hk | hk
        · have hk1 : k = i - 1 := by omega
          subst hk1
          have hbk : (defineChainBounds st).boundsOf (i - 1) = (i - 1, i + 1) := by
            rw [hbof (i - 1) (by omega), if_pos (by omega)]
            have e1 : i - 1 + 1 = i := by omega
            rw [e1, if_pos ⟨hc, hi⟩]
            have e2 : i - 1 + 2 = i + 1 := by omega
            rw [e2]
          rw [hbk, hbi]
        · have : k = i := by omega
          rw [this]
      · have hbi : (defineChainBounds st).boundsOf i = (i, i + 1) := by
          rw [hbof i hi, if_neg (by omega), if_neg hc]
        have hbeg : ((defineChainBounds st).getT i).chainBegin_ = i :=
          congrArg Prod.fst hbi
        have hend : ((defineChainBounds st).getT i).chainEnd_ = i + 1 :=
          congrArg Prod.snd hbi
        rw [hbeg] at h1
        rw [hend] at h2
        have : k = i := by omega
        rw [this]
  · have hh : st.chainPairs_ = false := by
      cases hcp : st.chainPairs_
      · rfl
      · exact absurd hcp h
    obtain ⟨hsz, hclear, hprops⟩ := defineChainBounds_runMode st hh
    intro i hi k h1 h2
    rw [hsz] at hi
    exact (hprops i hi).2.2.2.1 k h1 h2

end Triggers

namespace Triggers

theorem size_setHitRange (st : TriggersState) (b e : Nat) :
    (setHitRange st b e).size = st.size :=
  size_applyRange ..

theorem getT_setHitRange (st : TriggersState) (b e j : Nat) (hbe : b ≤ e) :
    (setHitRange st b e).getT j =
      if b ≤ j ∧ j < e ∧ j < st.size then (st.getT j).setHit true
      else st.getT j := by
  rw [setHitRange, getT_applyRange _ _ (List.nodup_range' ..)]
  have hmem : j ∈ List.range' b (e - b) ↔ b ≤ j ∧ j < e := by
    rw [List.mem_range'_1]
    omega
  simp only [hmem, and_assoc]

theorem getT_setHitRange_frame (st : TriggersState) (b e j : Nat) :
    ((setHitRange st b e).getT j).data1_ = (st.getT j).data1_ ∧
    ((setHitRange st b e).getT j).localHit_ = (st.getT j).localHit_ ∧
    ((setHitRange st b e).getT j).chainBegin_ = (st.getT j).chainBegin_ ∧
    ((setHitRange st b e).getT j).chainEnd_ = (st.getT j).chainEnd_ := by
  rw [setHitRange, getT_applyRange _ _ (List.nodup_range' ..)]
  split
  · exact ⟨rfl, rfl, rfl, rfl⟩
  · exact ⟨rfl, rfl, rfl, rfl⟩

theorem updateChainHitBit_spec (st : TriggersState) (ix : Nat) :
    ((updateChainHitBit st ix).fst = true ↔
      ∀ k, (st.getT ix).chainBegin_ ≤ k → k < (st.getT ix).chainEnd_ →
        (st.getT k).getLocalHit = true ∧
        (st.getT ix).getTiming = (st.getT k).getTiming) ∧
    ((updateChainHitBit st ix).fst = true →
      (updateChainHitBit st ix).snd =
        setHitRange st (st.getT ix).chainBegin_ (st.getT ix).chainEnd_) ∧
    ((updateChainHitBit st ix).fst = false → (updateChainHitBit st ix).snd = st) := by
  have hmem : ∀ k,
      (k ∈ List.range' (st.getT ix).chainBegin_
        ((st.getT ix).chainEnd_ - (st.getT ix).chainBegin_)) ↔
      ((st.getT ix).chainBegin_ ≤ k ∧ k < (st.getT ix).chainEnd_) := by
    intro k
    rw [List.mem_range'_1]
    omega
  simp only [updateChainHitBit]
  split_ifs with h
  · rw [Bool.and_eq_true] at h
    rcases h with ⟨hA, hB⟩
    refine ⟨⟨fun _ k h1 h2 => ?_, fun _ => rfl⟩, fun _ => rfl, fun hf => by simp at hf⟩
    refine ⟨List.all_eq_true.mp hA k ((hmem k).mpr ⟨h1, h2⟩), ?_⟩
    have hbeq := List.all_eq_true.mp hB k ((hmem k).mpr ⟨h1, h2⟩)
    exact beq_iff_eq.mp hbeq
  · refine ⟨⟨fun hf => by simp at hf, fun hall => ?_⟩, fun hf => by simp at hf,
      fun _ => rfl⟩
    exfalso
    apply h
    rw [Bool.and_eq_true]
    constructor
    · rw [List.all_eq_true]
      intro k hk
      exact (hall k ((hmem k).mp hk).1 ((hmem k).mp hk).2).1
    · rw [List.all_eq_true]
      intro k hk
      exact beq_iff_eq.mpr (hall k ((hmem k).mp hk).1 ((hmem k).mp hk).2).2

end Triggers

namespace Triggers

theorem getT_setHitRange_cases (st : TriggersState) (b e j : Nat) :
    (setHitRange st b e).getT j = st.getT j ∨
    (setHitRange st b e).getT j = (st.getT j).setHit true := by
  rw [setHitRange, getT_applyRange _ _ (List.nodup_range' ..)]
  split
  · exact Or.inr rfl
  · exact Or.inl rfl

/-- Evaluation gate of the event loops against a fixed state: the trigger
passes the interrupt gate and its match predicate holds. -/
def evalOk (pred : Trigger → Bool) (interruptEnabled : Bool)
    (st : TriggersState) (i : Nat) : Bool :=
  ((st.getT i).isEnterDebugOnHit || interruptEnabled) && pred (st.getT i)

/-- Chain resolution happens at iteration `i` of an event loop started in
state `st`: trigger `i` evaluates, and every member of its chain range
has the initiating trigger's timing and a local hit that is either
already set in `st` or set by an iteration up to and including `i`. -/
def resolvesAt (pred : Trigger → Bool) (interruptEnabled : Bool)
    (st : TriggersState) (i : Nat) : Prop :=
  evalOk pred interruptEnabled st i = true ∧
  ∀ k, (st.getT i).chainBegin_ ≤ k → k < (st.getT i).chainEnd_ →
    (st.getT i).getTiming = (st.getT k).getTiming ∧
    ((st.getT k).localHit_ = true ∨
      (evalOk pred interruptEnabled st k = true ∧ k ≤ i))

theorem hitLoopGo_spec (pred : Trigger → Bool) (intr : Bool)
    (hpred : ∀ (t : Trigger) (a b : Bool),
      pred { t with localHit_ := a, hit_ := b } = pred t) :
    ∀ (len : Nat) (st s : TriggersState) (m : Nat) (acc : Bool),
      m + len = st.size →
      s.size = st.size →
      (∀ j, ∃ hb : Bool, s.getT j =
        { st.getT j with
          localHit_ := (st.getT j).localHit_ ||
            (evalOk pred intr st j && decide (j < m)),
          hit_ := hb }) →
      ((hitLoopGo pred intr s acc (List.range' m len)).fst = true ↔
        (acc = true ∨ ∃ i, m ≤ i ∧ i < st.size ∧ resolvesAt pred intr st i)) ∧
      ((hitLoopGo pred intr s acc (List.range' m len)).snd.size = st.size) ∧
      (∀ j, ∃ hb : Bool,
        (hitLoopGo pred intr s acc (List.range' m len)).snd.getT j =
          { st.getT j with
            localHit_ := (st.getT j).localHit_ ||
              (evalOk pred intr st j && decide (j < st.size)),
            hit_ := hb }) := by
  intro len
  induction len with
  | zero =>
      intro st s m acc hm hsz hchar
      have hm2 : m = st.size := by omega
      refine ⟨?_, ?_, ?_⟩
      · show acc = true ↔
          (acc = true ∨ ∃ i, m ≤ i ∧ i < st.size ∧ resolvesAt pred intr st i)
        constructor
        · exact fun h => Or.inl h
        · rintro (h | ⟨i, h1, h2, _⟩)
          · exact h
          · omega
      · show s.size = st.size
        exact hsz
      · intro j
        obtain ⟨hb, hj⟩ := hchar j
        refine ⟨hb, ?_⟩
        show s.getT j = _
        rw [hj, hm2]
  | succ len ih =>
      intro st s m acc hm hsz hchar
      have hmlt : m < st.size := by omega
      rw [List.range'_succ]
      simp only [hitLoopGo]
      obtain ⟨hbm, hsm⟩ := hchar m
      have hEDoH : (s.getT m).isEnterDebugOnHit = (st.getT m).isEnterDebugOnHit := by
        rw [hsm]
        rfl
      have hpredm : pred (s.getT m) = pred (st.getT m) := by
        rw [hsm]
        exact hpred _ _ _
      have hskip : evalOk pred intr st m = false →
          ((hitLoopGo pred intr s acc (List.range' (m + 1) len)).fst = true ↔
            (acc = true ∨ ∃ i, m ≤ i ∧ i < st.size ∧ resolvesAt pred intr st i)) ∧
          ((hitLoopGo pred intr s acc (List.range' (m + 1) len)).snd.size = st.size) ∧
          (∀ j, ∃ hb : Bool,
            (hitLoopGo pred intr s acc (List.range' (m + 1) len)).snd.getT j =
              { st.getT j with
                localHit_ := (st.getT j).localHit_ ||
                  (evalOk pred intr st j && decide (j < st.size)),
                hit_ := hb }) := by
        intro hev
        have hchar2 : ∀ j, ∃ hb : Bool, s.getT j =
            { st.getT j with
              localHit_ := (st.getT j).localHit_ ||
                (evalOk pred intr st j && decide (j < m + 1)),
              hit_ := hb } := by
          intro j
          obtain ⟨hb, hj⟩ := hchar j
          refine ⟨hb, ?_⟩
          have hAB : ((st.getT j).localHit_ ||
              (evalOk pred intr st j && decide (j < m))) =
              ((st.getT j).localHit_ ||
              (evalOk pred intr st j && decide (j < m + 1))) := by
            by_cases hjm : j = m
            · subst hjm
              rw [hev]
              simp
            · have hd : decide (j < m) = decide (j < m + 1) :=
                decide_eq_decide.mpr (by omega)
              rw [hd]
          rw [hj, hAB]
        have hres := ih st s (m + 1) acc (by omega) hsz hchar2
        refine ⟨?_, hres.2.1, hres.2.2⟩
        rw [hres.1]
        constructor
        · rintro (h | ⟨i, h1, h2, h3⟩)
          · exact Or.inl h
          · exact Or.inr ⟨i, by omega, h2, h3⟩
        · rintro (h | ⟨i, h1, h2, h3⟩)
          · exact Or.inl h
          · rcases Nat.eq_or_lt_of_le h1 with heq | hlt
            · exfalso
              rw [heq] at hev
              rw [h3.1] at hev
              simp at hev
            · exact Or.inr ⟨i, by omega, h2, h3⟩
      by_cases hgate : (!(s.getT m).isEnterDebugOnHit && !intr) = true
      · rw [if_pos hgate]
        apply hskip
        have hg2 := hgate
        rw [hEDoH] at hg2
        rw [Bool.and_eq_true, Bool.not_eq_true', Bool.not_eq_true'] at hg2
        unfold evalOk
        rw [hg2.1, hg2.2]
        rfl
      · rw [if_neg hgate]
        by_cases hpm : pred (s.getT m) = true
        · -- main branch: the trigger matches and its chain is resolved
          rw [if_neg (show ¬((!pred (s.getT m)) = true) by rw [hpm]; simp)]
          have hgate2 : ((st.getT m).isEnterDebugOnHit || intr) = true := by
            rw [← hEDoH]
            revert hgate
            cases (s.getT m).isEnterDebugOnHit <;> cases intr <;> simp
          have hevm : evalOk pred intr st m = true := by
            unfold evalOk
            rw [Bool.and_eq_true]
            exact ⟨hgate2, by rw [← hpredm]; exact hpm⟩
          set st2 := s.modifyT m (fun t => t.setLocalHit true) with hst2
          set p := updateChainHitBit st2 m with hp
          have hst2size : st2.size = st.size := by
            rw [hst2, TriggersState.size_modifyT, hsz]
          have hchar2 : ∀ j, ∃ hb : Bool, st2.getT j =
              { st.getT j with
                localHit_ := (st.getT j).localHit_ ||
                  (evalOk pred intr st j && decide (j < m + 1)),
                hit_ := hb } := by
            intro j
            by_cases hjm : j = m
            · subst hjm
              refine ⟨hbm, ?_⟩
              rw [hst2, TriggersState.getT_modifyT,
                if_pos ⟨rfl, by rw [hsz]; exact hmlt⟩, hsm]
              simp [Trigger.setLocalHit, hevm]
            · obtain ⟨hb, hj⟩ := hchar j
              refine ⟨hb, ?_⟩
              rw [hst2, TriggersState.getT_modifyT,
                if_neg (fun hc => hjm hc.1.symm), hj]
              have hd : decide (j < m) = decide (j < m + 1) :=
                decide_eq_decide.mpr (by omega)
              rw [hd]
          obtain ⟨hb2, hs2m⟩ := hchar2 m
          have hbeg2 : (st2.getT m).chainBegin_ = (st.getT m).chainBegin_ := by
            rw [hs2m]
          have hend2 : (st2.getT m).chainEnd_ = (st.getT m).chainEnd_ := by
            rw [hs2m]
          have htim2 : ∀ k, (st2.getT k).getTiming = (st.getT k).getTiming := by
            intro k
            obtain ⟨hb3, hk⟩ := hchar2 k
            rw [hk]
            rfl
          have hloc2 : ∀ k, (st2.getT k).getLocalHit =
              ((st.getT k).localHit_ ||
                (evalOk pred intr st k && decide (k < m + 1))) := by
            intro k
            obtain ⟨hb3, hk⟩ := hchar2 k
            rw [hk]
            rfl
          obtain ⟨hufst, husndT, husndF⟩ := updateChainHitBit_spec st2 m
          rw [← hp] at hufst husndT husndF
          have hpfst : p.fst = true ↔ resolvesAt pred intr st m := by
            rw [hufst, hbeg2, hend2]
            unfold resolvesAt
            constructor
            · intro hall
              refine ⟨hevm, fun k h1 h2 => ?_⟩
              obtain ⟨hl, ht⟩ := hall k h1 h2
              constructor
              · rw [htim2 m, htim2 k] at ht
                exact ht
              · rw [hloc2 k, Bool.or_eq_true, Bool.and_eq_true,
                  decide_eq_true_eq] at hl
                rcases hl with hl | ⟨he, hk⟩
                · exact Or.inl hl
                · exact Or.inr ⟨he, by omega⟩
            · rintro ⟨_, hres⟩ k h1 h2
              obtain ⟨ht, hl⟩ := hres k h1 h2
              constructor
              · rw [hloc2 k, Bool.or_eq_true, Bool.and_eq_true,
                  decide_eq_true_eq]
                rcases hl with hl | ⟨he, hk⟩
                · exact Or.inl hl
                · exact Or.inr ⟨he, by omega⟩
              · rw [htim2 m, htim2 k]
                exact ht
          have hchar3 : ∀ j, ∃ hb : Bool, p.snd.getT j =
              { st.getT j with
                localHit_ := (st.getT j).localHit_ ||
                  (evalOk pred intr st j && decide (j < m + 1)),
                hit_ := hb } := by
            intro j
            obtain ⟨hb, hj⟩ := hchar2 j
            cases hpf : p.fst
            · rw [husndF hpf]
              exact ⟨hb, hj⟩
            · rw [husndT hpf]
              rcases getT_setHitRange_cases st2 (st2.getT m).chainBegin_
                  (st2.getT m).chainEnd_ j with h | h
              · rw [h]
                exact ⟨hb, hj⟩
              · rw [h, hj]
                exact ⟨true, rfl⟩
          have hsz3 : p.snd.size = st.size := by
            cases hpf : p.fst
            · rw [husndF hpf]
              exact hst2size
            · rw [husndT hpf, size_setHitRange]
              exact hst2size
          have hres := ih st p.snd (m + 1) (acc || p.fst) (by omega) hsz3 hchar3
          refine ⟨?_, hres.2.1, hres.2.2⟩
          rw [hres.1]
          constructor
          · rintro (h | ⟨i, h1, h2, h3⟩)
            · rw [Bool.or_eq_true] at h
              rcases h with h | h
              · exact Or.inl h
              · exact Or.inr ⟨m, le_refl m, hmlt, hpfst.mp h⟩
            · exact Or.inr ⟨i, by omega, h2, h3⟩
          · rintro (h | ⟨i, h1, h2, h3⟩)
            · refine Or.inl ?_
              rw [Bool.or_eq_true]
              exact Or.inl h
            · rcases Nat.eq_or_lt_of_le h1 with heq | hlt
              · refine Or.inl ?_
                rw [Bool.or_eq_true]
                refine Or.inr (hpfst.mpr ?_)
                rw [heq]
                exact h3
              · exact Or.inr ⟨i, by omega, h2, h3⟩
        · -- the match predicate rejects: skip
          rw [if_pos (show (!pred (s.getT m)) = true by
            cases h : pred (s.getT m)
            · rfl
            · exact absurd h hpm)]
          apply hskip
          have hpf : pred (st.getT m) = false := by
            rw [← hpredm]
            cases h : pred (s.getT m)
            · rfl
            · exact absurd h hpm
          unfold evalOk
          rw [hpf, Bool.and_false]

end Triggers

namespace Triggers

/-- Effect of one `icountTriggerHit` iteration on its own trigger:
skipped triggers are unchanged; an evaluated trigger has its countdown
ticked, and additionally gets `hit` and `localHit` on expiry. -/
def icountStep (interruptEnabled : Bool) (t : Trigger) : Trigger :=
  if !t.isEnterDebugOnHit && !interruptEnabled then t
  else if t.isModified then t
  else if t.instCountdown.fst then
    ((t.instCountdown.snd.setHit true).setLocalHit true)
  else t.instCountdown.snd

/-- A trigger reports an icount hit: it passes the interrupt gate, was
not written by the current instruction, and its countdown expires. -/
def icountFires (interruptEnabled : Bool) (t : Trigger) : Bool :=
  (t.isEnterDebugOnHit || interruptEnabled) && !t.isModified &&
    t.instCountdown.fst

theorem icountGo_spec (intr : Bool) :
    ∀ (len : Nat) (st s : TriggersState) (m : Nat) (acc : Bool),
      m + len = st.size →
      s.size = st.size →
      (∀ j, s.getT j = if j < m then icountStep intr (st.getT j) else st.getT j) →
      ((icountGo intr s acc (List.range' m len)).fst = true ↔
        (acc = true ∨ ∃ i, i < st.size ∧ m ≤ i ∧
          icountFires intr (st.getT i) = true)) ∧
      ((icountGo intr s acc (List.range' m len)).snd.size = st.size) ∧
      (∀ j, (icountGo intr s acc (List.range' m len)).snd.getT j =
        if j < st.size then icountStep intr (st.getT j) else st.getT j) := by
  intro len
  induction len with
  | zero =>
      intro st s m acc hm hsz hchar
      have hm2 : m = st.size := by omega
      refine ⟨?_, hsz, ?_⟩
      · show acc = true ↔ _
        constructor
        · exact fun h => Or.inl h
        · rintro (h | ⟨i, h1, h2, _⟩)
          · exact h
          · omega
      · intro j
        show s.getT j = _
        rw [hchar j, hm2]
  | succ len ih =>
      intro st s m acc hm hsz hchar
      have hmlt : m < st.size := by omega
      rw [List.range'_succ]
      simp only [icountGo]
      have hsm : s.getT m = st.getT m :=
        (hchar m).trans (if_neg (lt_irrefl m))
      rw [hsm]
      have hnext : ∀ (s2 : TriggersState) (acc2 : Bool),
          s2.size = st.size →
          (∀ j, s2.getT j =
            if j < m + 1 then icountStep intr (st.getT j) else st.getT j) →
          ((icountGo intr s2 acc2 (List.range' (m + 1) len)).fst = true ↔
            (acc2 = true ∨ ∃ i, i < st.size ∧ m + 1 ≤ i ∧
              icountFires intr (st.getT i) = true)) ∧
          ((icountGo intr s2 acc2 (List.range' (m + 1) len)).snd.size = st.size) ∧
          (∀ j, (icountGo intr s2 acc2 (List.range' (m + 1) len)).snd.getT j =
            if j < st.size then icountStep intr (st.getT j) else st.getT j) :=
        fun s2 acc2 h1 h2 => ih st s2 (m + 1) acc2 (by omega) h1 h2
      by_cases hgate : (!(st.getT m).isEnterDebugOnHit && !intr) = true
      · rw [if_pos hgate]
        have hstep : icountStep intr (st.getT m) = st.getT m := by
          unfold icountStep
          rw [if_pos hgate]
        have hfires : icountFires intr (st.getT m) = false := by
          unfold icountFires
          rw [Bool.and_eq_true, Bool.not_eq_true', Bool.not_eq_true'] at hgate
          rw [hgate.1, hgate.2]
          rfl
        have hchar2 : ∀ j, s.getT j =
            if j < m + 1 then icountStep intr (st.getT j) else st.getT j := by
          intro j
          rw [hchar j]
          by_cases hjm : j = m
          · subst hjm
            rw [if_neg (lt_irrefl j), if_pos (by omega), hstep]
          · by_cases hj : j < m
            · rw [if_pos hj, if_pos (by omega)]
            · rw [if_neg hj, if_neg (by omega)]
        have hres := hnext s acc hsz hchar2
        refine ⟨?_, hres.2.1, hres.2.2⟩
        rw [hres.1]
        constructor
        · rintro (h | ⟨i, h1, h2, h3⟩)
          · exact Or.inl h
          · exact Or.inr ⟨i, h1, by omega, h3⟩
        · rintro (h | ⟨i, h1, h2, h3⟩)
          · exact Or.inl h
          · rcases Nat.eq_or_lt_of_le h2 with heq | hlt
            · exfalso
              rw [heq] at hfires
              rw [h3] at hfires
              simp at hfires
            · exact Or.inr ⟨i, h1, by omega, h3⟩
      · rw [if_neg hgate]
        have hgate2 : ((st.getT m).isEnterDebugOnHit || intr) = true := by
          revert hgate
          cases (st.getT m).isEnterDebugOnHit <;> cases intr <;> simp
        by_cases hmod : (st.getT m).isModified = true
        · rw [if_pos hmod]
          have hstep : icountStep intr (st.getT m) = st.getT m := by
            unfold icountStep
            rw [if_neg hgate, if_pos hmod]
          have hfires : icountFires intr (st.getT m) = false := by
            unfold icountFires
            rw [hmod]
            simp
          have hchar2 : ∀ j, s.getT j =
              if j < m + 1 then icountStep intr (st.getT j) else st.getT j := by
            intro j
            rw [hchar j]
            by_cases hjm : j = m
            · subst hjm
              rw [if_neg (lt_irrefl j), if_pos (by omega), hstep]
            · by_cases hj : j < m
              · rw [if_pos hj, if_pos (by omega)]
              · rw [if_neg hj, if_neg (by omega)]
          have hres := hnext s acc hsz hchar2
          refine ⟨?_, hres.2.1, hres.2.2⟩
          rw [hres.1]
          constructor
          · rintro (h | ⟨i, h1, h2, h3⟩)
            · exact Or.inl h
            · exact Or.inr ⟨i, h1, by omega, h3⟩
          · rintro (h | ⟨i, h1, h2, h3⟩)
            · exact Or.inl h
            · rcases Nat.eq_or_lt_of_le h2 with heq | hlt
              · exfalso
                rw [heq] at hfires
                rw [h3] at hfires
                simp at hfires
              · exact Or.inr ⟨i, h1, by omega, h3⟩
        · rw [if_neg hmod]
          have hcharNew : ∀ (tnew : Trigger),
              tnew = icountStep intr (st.getT m) →
              ∀ j, (s.setT m tnew).getT j =
                if j < m + 1 then icountStep intr (st.getT j) else st.getT j := by
            intro tnew htnew j
            rw [TriggersState.getT_setT]
            by_cases hjm : m = j
            · subst hjm
              rw [if_pos ⟨rfl, by rw [hsz]; exact hmlt⟩, if_pos (by omega), htnew]
            · rw [if_neg (fun hc => hjm hc.1), hchar j]
              by_cases hj : j < m
              · rw [if_pos hj, if_pos (by omega)]
              · rw [if_neg hj, if_neg (by omega)]
          by_cases hexp : (st.getT m).instCountdown.fst = true
          · rw [if_neg (by rw [hexp]; simp)]
            have hstep : icountStep intr (st.getT m) =
                (((st.getT m).instCountdown.snd.setHit true).setLocalHit true) := by
              unfold icountStep
              rw [if_neg hgate, if_neg hmod, if_pos hexp]
            have hfires : icountFires intr (st.getT m) = true := by
              unfold icountFires
              rw [hgate2, hexp]
              rw [Bool.not_eq_true] at hmod
              rw [hmod]
              rfl
            have hres := hnext
              (s.setT m (((st.getT m).instCountdown.snd.setHit true).setLocalHit true))
              true (by rw [TriggersState.size_setT]; exact hsz)
              (hcharNew _ hstep.symm)
            refine ⟨?_, hres.2.1, hres.2.2⟩
            rw [hres.1]
            constructor
            · intro _
              exact Or.inr ⟨m, hmlt, le_refl m, hfires⟩
            · intro _
              exact Or.inl rfl
          · rw [if_pos (by rw [Bool.not_eq_true] at hexp; rw [hexp]; rfl)]
            have hstep : icountStep intr (st.getT m) =
                (st.getT m).instCountdown.snd := by
              unfold icountStep
              rw [if_neg hgate, if_neg hmod, if_neg hexp]
            have hfires : icountFires intr (st.getT m) = false := by
              unfold icountFires
              rw [Bool.not_eq_true] at hexp
              rw [hexp]
              simp
            have hres := hnext (s.setT m (st.getT m).instCountdown.snd) acc
              (by rw [TriggersState.size_setT]; exact hsz)
              (hcharNew _ hstep.symm)
            refine ⟨?_, hres.2.1, hres.2.2⟩
            rw [hres.1]
            constructor
            · rintro (h | ⟨i, h1, h2, h3⟩)
              · exact Or.inl h
              · exact Or.inr ⟨i, h1, by omega, h3⟩
            · rintro (h | ⟨i, h1, h2, h3⟩)
              · exact Or.inl h
              · rcases Nat.eq_or_lt_of_le h2 with heq | hlt
                · exfalso
                  rw [heq] at hfires
                  rw [h3] at hfires
                  simp at hfires
                · exact Or.inr ⟨i, h1, by omega, h3⟩

end Triggers

namespace Trigger

/-- State-transformer reading of `Trigger::doMatch` (a `const` method):
the returned trigger is the object state after the call.  The C++ body
reassigns only its local `item` parameter, never a member, so the object
comes back unchanged. -/
def doMatchM (w : Nat) (t : Trigger) (item : Nat) : Bool × Trigger :=
  if t.data1_.match_ = matchEqual then (item == t.data2_, t)
  else if t.data1_.match_ = matchMasked then
    ((item &&& t.data2CompareMask_) == (t.data2_ &&& t.data2CompareMask_), t)
  else if t.data1_.match_ = matchGE then (decide (t.data2_ ≤ item), t)
  else if t.data1_.match_ = matchLT then (decide (item < t.data2_), t)
  else if t.data1_.match_ = matchMaskHighEqualLow then
    let halfBitCount := w / 2
    let item2 := item &&& (t.data2_ >>> halfBitCount)
    (((item2 <<< halfBitCount) % 2 ^ w) == ((t.data2_ <<< halfBitCount) % 2 ^ w), t)
  else if t.data1_.match_ = matchMaskLowEqualHigh then
    let halfBitCount := w / 2
    let item2 := item &&& ((t.data2_ <<< halfBitCount) % 2 ^ w)
    ((item2 >>> halfBitCount) == (t.data2_ >>> halfBitCount), t)
  else (false, t)

/-- State-transformer reading of `Trigger::matchLdStAddr` (`const`). -/
def matchLdStAddrM (w : Nat) (t : Trigger) (address timing : Nat)
    (isLoad : Bool) : Bool × Trigger :=
  if t.data1_.type_ ≠ addrDataType then (false, t)
  else if !t.data1_.m_ then (false, t)
  else
    let isStore := !isLoad
    if t.data1_.timing_ = timing ∧ t.data1_.select_ = selMatchAddress ∧
        ((isLoad ∧ t.data1_.load_) ∨ (isStore ∧ t.data1_.store_)) then
      t.doMatchM w address
    else (false, t)

/-- State-transformer reading of `Trigger::matchLdStData` (`const`). -/
def matchLdStDataM (w : Nat) (t : Trigger) (value timing : Nat)
    (isLoad : Bool) : Bool × Trigger :=
  if t.data1_.type_ ≠ addrDataType then (false, t)
  else if !t.data1_.m_ then (false, t)
  else
    let isStore := !isLoad
    if t.data1_.timing_ = timing ∧ t.data1_.select_ = selMatchData ∧
        ((isLoad ∧ t.data1_.load_) ∨ (isStore ∧ t.data1_.store_)) then
      t.doMatchM w value
    else (false, t)

/-- State-transformer reading of `Trigger::matchInstAddr` (`const`). -/
def matchInstAddrM (w : Nat) (t : Trigger) (address timing : Nat) : Bool × Trigger :=
  if t.data1_.type_ ≠ addrDataType then (false, t)
  else if !t.data1_.m_ then (false, t)
  else
    if t.data1_.timing_ = timing ∧ t.data1_.select_ = selMatchAddress ∧
        t.data1_.execute_ then
      t.doMatchM w address
    else (false, t)

/-- State-transformer reading of `Trigger::matchInstOpcode` (`const`). -/
def matchInstOpcodeM (w : Nat) (t : Trigger) (opcode timing : Nat) : Bool × Trigger :=
  if t.data1_.type_ ≠ addrDataType then (false, t)
  else if !t.data1_.m_ then (false, t)
  else
    if t.data1_.timing_ = timing ∧ t.data1_.select_ = selMatchData ∧
        t.data1_.execute_ then
      t.doMatchM w opcode
    else (false, t)

end Trigger

namespace Triggers

theorem getT_setHitRange_if (st : TriggersState) (b e j : Nat) :
    (setHitRange st b e).getT j =
      if b ≤ j ∧ j < e ∧ j < st.size then (st.getT j).setHit true
      else st.getT j := by
  rw [setHitRange, getT_applyRange _ _ (List.nodup_range' ..)]
  have hmem : j ∈ List.range' b (e - b) ↔ b ≤ j ∧ j < e := by
    rw [List.mem_range'_1]
    omega
  simp only [hmem, and_assoc]

end Triggers

/-- Modelled from the spec: `firesOnInterruptOnly` (spec section 4.1:
"policy derived from control bits — if false, the trigger only evaluates
when the caller reports interrupts currently enabled").  This behaviour
is precisely the role `Triggers.cpp` gives `isEnterDebugOnHit` in every
event loop, so the two coincide. -/
def Trigger.firesOnInterruptOnly (t : Trigger) : Bool := t.isEnterDebugOnHit

/-- Decoded `data1` value whose only set field is the chain bit. -/
def chainOneData1 : Data1 := { defaultData1 with chain_ := true }

/-- Trigger whose register-1 write and poke masks pass every field, with
singleton chain bounds `[b, e)`. -/
def openTrigger (b e : Nat) : Trigger :=
  { defaultTrigger with data1WriteMask_ := fullData1Mask,
                        data1PokeMask_ := fullData1Mask,
                        chainBegin_ := b, chainEnd_ := e }

/-- Two-trigger run-mode bank with open masks and singleton chains. -/
def c1State : TriggersState :=
  { triggers_ := [openTrigger 0 1, openTrigger 1 2], chainPairs_ := false }

/-- Trigger with chain bit `c` and singleton chain bounds `[b, e)`. -/
def chainTrigger (c : Bool) (b e : Nat) : Trigger :=
  { defaultTrigger with data1_ := { defaultData1 with chain_ := c },
                        chainBegin_ := b, chainEnd_ := e }

/-- Five-trigger run-mode bank with chain bits `[1,1,0,1,0]` (spec
example). -/
def exampleRunState : TriggersState :=
  { triggers_ := [chainTrigger true 0 1, chainTrigger true 1 2,
      chainTrigger false 2 3, chainTrigger true 3 4, chainTrigger false 4 5],
    chainPairs_ := false }

/-- Five-trigger paired-mode bank with chain bits `[1,1,0,1,0]`. -/
def examplePairState : TriggersState :=
  { triggers_ := [chainTrigger true 0 1, chainTrigger true 1 2,
      chainTrigger false 2 3, chainTrigger true 3 4, chainTrigger false 4 5],
    chainPairs_ := true }

/-- Enabled address trigger matching value 5 in Equal mode, timing 0,
load accesses, with `isEnterDebugOnHit` clear. -/
def quietMatchData1 : Data1 :=
  { defaultData1 with type_ := addrDataType, m_ := true, load_ := true }

def quietMatchTrigger : Trigger :=
  { defaultTrigger with data1_ := quietMatchData1, data2_ := 5,
                        chainBegin_ := 0, chainEnd_ := 1 }

/-- One-trigger run-mode bank around `quietMatchTrigger`. -/
def c4State : TriggersState :=
  { triggers_ := [quietMatchTrigger], chainPairs_ := false }

/-- Two chained triggers (bounds `[0, 2)` on both) with local hits set
and identical timing. -/
def c3State : TriggersState :=
  { triggers_ :=
      [{ chainTrigger true 0 2 with localHit_ := true },
       { chainTrigger false 0 2 with localHit_ := true }],
    chainPairs_ := false }

/-- Enabled icount trigger one instruction from expiry. -/
def icountReadyData1 : Data1 :=
  { defaultData1 with type_ := icountType, m_ := true, enterDebug_ := true }

def icountReadyTrigger : Trigger :=
  { defaultTrigger with data1_ := icountReadyData1, counter_ := 1,
                        chainBegin_ := 0, chainEnd_ := 1 }

/-- One-trigger bank around `icountReadyTrigger`. -/
def c7State : TriggersState :=
  { triggers_ := [icountReadyTrigger], chainPairs_ := false }

/-- Trigger in MaskHighEqualLow mode with compare value 0xAAAA5555. -/
def maskHighTrigger : Trigger :=
  { defaultTrigger with
      data1_ := { defaultData1 with match_ := matchMaskHighEqualLow },
      data2_ := 0xAAAA5555 }

/-- Icount trigger marked as written by the current instruction. -/
def modifiedTrigger : Trigger := { icountReadyTrigger with modified_ := true }

/-- One-trigger bank whose trigger is modified. -/
def c7ModState : TriggersState :=
  { triggers_ := [modifiedTrigger], chainPairs_ := false }

/-- Decoded `data1` in GreaterOrEqual match mode. -/
def geData1 : Data1 := { defaultData1 with match_ := matchGE }

/-- Decoded `data1` in LessThan match mode. -/
def ltData1 : Data1 := { defaultData1 with match_ := matchLT }

/-- C1 counterexample: the three-register `Triggers::poke` flips the
chain bit of trigger 0 of a two-trigger run-mode bank, but performs no
chain-bounds recomputation: after the poke the chain bit is set, yet
trigger 0 still stores the stale singleton bounds `[0, 1)`, although a
recomputation of the poked state yields `[0, 2)`.  This refutes the
claim that the three-register poke operation recomputes chain bounds
when it changes a chain bit. -/
theorem spec_c1_poke_no_recompute :
    (Triggers.poke 32 c1State 0 chainOneData1 0 0).fst = true ∧
    (c1State.getT 0).getChain = false ∧
    ((Triggers.poke 32 c1State 0 chainOneData1 0 0).snd.getT 0).getChain = true ∧
    ((Triggers.poke 32 c1State 0 chainOneData1 0 0).snd.getT 0).getChainBounds = (0, 1) ∧
    ((Triggers.defineChainBounds
        (Triggers.poke 32 c1State 0 chainOneData1 0 0).snd).getT 0).getChainBounds = (0, 2) ∧
    (Triggers.poke 32 c1State 0 chainOneData1 0 0).snd ≠
      Triggers.defineChainBounds (Triggers.poke 32 c1State 0 chainOneData1 0 0).snd := by
  decide

/-- C1 (amended): an applied `Triggers::writeData1` that flips the chain
bit, and a `Triggers::pokeData1` that flips the chain bit, each trigger
a full chain-bounds recomputation, after which every member of each
resulting chain group holds one identical `[begin, end)` range
(`boundsCoherent`).  The three-register `poke` is excluded: it performs
no recomputation. -/
theorem spec_c1_chain_flip_recomputes (w : Nat) (st : TriggersState)
    (ix : Nat) (debugMode : Bool) (v : Data1) :
    (ix < st.size →
      ((st.getT ix).writeData1 debugMode v).fst = true →
      (st.getT ix).getChain ≠ ((st.getT ix).writeData1 debugMode v).snd.getChain →
      Triggers.writeData1 st ix debugMode v =
        (true, Triggers.defineChainBounds
          (st.setT ix ((st.getT ix).writeData1 debugMode v).snd)) ∧
      boundsCoherent (Triggers.writeData1 st ix debugMode v).snd) ∧
    (ix < st.size →
      (st.getT ix).getChain ≠ ((st.getT ix).pokeData1 v).getChain →
      Triggers.pokeData1 st ix v =
        (true, Triggers.defineChainBounds (st.setT ix ((st.getT ix).pokeData1 v))) ∧
      boundsCoherent (Triggers.pokeData1 st ix v).snd) := by
  constructor
  · intro hix hok hch
    have heq : Triggers.writeData1 st ix debugMode v =
        (true, Triggers.defineChainBounds
          (st.setT ix ((st.getT ix).writeData1 debugMode v).snd)) := by
      simp only [Triggers.writeData1]
      rw [if_pos hix, hok]
      simp only [Bool.not_true]
      rw [if_neg Bool.false_ne_true, if_pos hch]
    refine ⟨heq, ?_⟩
    rw [heq]
    exact Triggers.defineChainBounds_coherent _
  · intro hix hch
    have heq : Triggers.pokeData1 st ix v =
        (true, Triggers.defineChainBounds (st.setT ix ((st.getT ix).pokeData1 v))) := by
      simp only [Triggers.pokeData1]
      rw [if_pos hix, if_pos hch]
    refine ⟨heq, ?_⟩
    rw [heq]
    exact Triggers.defineChainBounds_coherent _

theorem spec_c1_witness :
    Triggers.writeData1 c1State 0 true chainOneData1 =
      (true, Triggers.defineChainBounds
        (c1State.setT 0 ((c1State.getT 0).writeData1 true chainOneData1).snd)) ∧
    boundsCoherent (Triggers.writeData1 c1State 0 true chainOneData1).snd :=
  (spec_c1_chain_flip_recomputes 32 c1State 0 true chainOneData1).1
    (by decide) (by decide) (by decide)

/-- C2 (code bug): `Triggers::config` tests `trigger <= triggers_.size()`
before resizing to `trigger + 1`, so configuring trigger 0 of a
three-trigger bank shrinks the bank to a single trigger, and
configuring trigger 3 of a one-trigger bank leaves the bank unresized
and then indexes out of range (`std::vector::at` raises, modelled as
`none`).  The claim (and the spec) require the bank to grow to
`index + 1` only when needed and never to shrink. -/
theorem spec_c2_config_resize_bug :
    (Triggers.init 3 false).size = 3 ∧
    (Triggers.config 32 (Triggers.init 3 false) 0 defaultData1 0 0
      defaultData1Mask 0 0 defaultData1Mask 0 0).map TriggersState.size = some 1 ∧
    (Triggers.config 32 (Triggers.init 1 false) 3 defaultData1 0 0
      defaultData1Mask 0 0 defaultData1Mask 0 0) = none := by
  decide

/-- C3: `Triggers::updateChainHitBit` (the spec's `resolveChain`) returns
true iff every member of the initiating trigger's chain range has its
local hit set and a timing identical to the initiating trigger's; when
it returns true it sets `hit` on every member of the range and changes
nothing else, and when it returns false the whole state is unchanged. -/
theorem spec_c3_resolveChain (st : TriggersState) (ix : Nat) (hix : ix < st.size) :
    ((Triggers.updateChainHitBit st ix).fst = true ↔
      ∀ k, (st.getT ix).chainBegin_ ≤ k → k < (st.getT ix).chainEnd_ →
        (st.getT k).getLocalHit = true ∧
        (st.getT k).getTiming = (st.getT ix).getTiming) ∧
    ((Triggers.updateChainHitBit st ix).fst = true →
      ∀ j, (Triggers.updateChainHitBit st ix).snd.getT j =
        if (st.getT ix).chainBegin_ ≤ j ∧ j < (st.getT ix).chainEnd_ ∧ j < st.size
        then (st.getT j).setHit true else st.getT j) ∧
    ((Triggers.updateChainHitBit st ix).fst = false →
      (Triggers.updateChainHitBit st ix).snd = st) := by
  obtain ⟨h1, h2, h3⟩ := Triggers.updateChainHitBit_spec st ix
  refine ⟨?_, ?_, h3⟩
  · rw [h1]
    constructor
    · intro h k hk1 hk2
      obtain ⟨ha, hb⟩ := h k hk1 hk2
      exact ⟨ha, hb.symm⟩
    · intro h k hk1 hk2
      obtain ⟨ha, hb⟩ := h k hk1 hk2
      exact ⟨ha, hb.symm⟩
  · intro hf j
    rw [h2 hf, Triggers.getT_setHitRange_if]

theorem spec_c3_witness :
    ((Triggers.updateChainHitBit c3State 0).fst = true ↔
      ∀ k, (c3State.getT 0).chainBegin_ ≤ k → k < (c3State.getT 0).chainEnd_ →
        (c3State.getT k).getLocalHit = true ∧
        (c3State.getT k).getTiming = (c3State.getT 0).getTiming) ∧
    ((Triggers.updateChainHitBit c3State 0).fst = true →
      ∀ j, (Triggers.updateChainHitBit c3State 0).snd.getT j =
        if (c3State.getT 0).chainBegin_ ≤ j ∧ j < (c3State.getT 0).chainEnd_ ∧
            j < c3State.size
        then (c3State.getT j).setHit true else c3State.getT j) ∧
    ((Triggers.updateChainHitBit c3State 0).fst = false →
      (Triggers.updateChainHitBit c3State 0).snd = c3State) :=
  spec_c3_resolveChain c3State 0 (by decide)

namespace Triggers

/-- Net effect of one event-hit call: the returned flag is true iff some
iteration resolved a chain; the state keeps its size; and each trigger's
`localHit` is its old value or-ed with its own evaluation (gate-and-
match) result, with only the `hit` flag otherwise free to change. -/
def eventHitSpec (pred : Trigger → Bool) (intr : Bool) (st : TriggersState)
    (r : Bool × TriggersState) : Prop :=
  (r.fst = true ↔ ∃ i, i < st.size ∧ resolvesAt pred intr st i) ∧
  r.snd.size = st.size ∧
  (∀ j, ∃ hb : Bool, r.snd.getT j =
    { st.getT j with
      localHit_ := (st.getT j).localHit_ ||
        (evalOk pred intr st j && decide (j < st.size)),
      hit_ := hb })

theorem eventLoop_spec (pred : Trigger → Bool) (intr : Bool)
    (hpred : ∀ (t : Trigger) (a b : Bool),
      pred { t with localHit_ := a, hit_ := b } = pred t)
    (st : TriggersState) :
    eventHitSpec pred intr st (hitLoopGo pred intr st false (List.range st.size)) := by
  have hchar : ∀ j, ∃ hb : Bool, st.getT j =
      { st.getT j with
        localHit_ := (st.getT j).localHit_ ||
          (evalOk pred intr st j && decide (j < 0)),
        hit_ := hb } := by
    intro j
    refine ⟨(st.getT j).hit_, ?_⟩
    have h0 : (evalOk pred intr st j && decide (j < 0)) = false := by
      simp
    rw [h0, Bool.or_false]
  have hmain := hitLoopGo_spec pred intr hpred st.size st st 0 false
    (by omega) rfl hchar
  rw [List.range_eq_range']
  refine ⟨?_, hmain.2.1, hmain.2.2⟩
  rw [hmain.1]
  constructor
  · rintro (h | ⟨i, h1, h2, h3⟩)
    · exact absurd h Bool.false_ne_true
    · exact ⟨i, h2, h3⟩
  · rintro ⟨i, h1, h2⟩
    exact Or.inr ⟨i, Nat.zero_le i, h1, h2⟩

end Triggers

/-- C4 counterexample: trigger 0 of `c4State` has `firesOnInterruptOnly`
false (spec section 4.1 reading) and a holding load/store-address match
predicate, yet with interrupts disabled `ldStAddrTriggerHit` skips it:
the call returns false and leaves the state (in particular `localHit`)
unchanged.  Under the claim's gate — "skip unless firesOnInterruptOnly()
is false or interruptsEnabled is true" — this trigger would have been
evaluated and its `localHit` set. -/
theorem spec_c4_gate_polarity :
    Trigger.firesOnInterruptOnly (c4State.getT 0) = false ∧
    Trigger.matchLdStAddr 32 (c4State.getT 0) 5 0 true = true ∧
    Triggers.ldStAddrTriggerHit 32 c4State 5 0 true false = (false, c4State) ∧
    ((Triggers.ldStAddrTriggerHit 32 c4State 5 0 true false).snd.getT 0).localHit_ = false := by
  decide

/-- C4 (amended): each of the four event-hit functions skips a trigger
unless it enters debug on hit (`isEnterDebugOnHit`; equal to the spec's
`firesOnInterruptOnly`) or interrupts are enabled, and skips it unless
its match predicate holds; an evaluated trigger gets its `localHit` set
and its chain resolved; the call returns true iff at least one chain
group resolved during this call (`resolvesAt`), and the state is changed
only in the `localHit`/`hit` flags. -/
theorem spec_c4_event_hits (w : Nat) (st : TriggersState)
    (address value opcode timing : Nat) (isLoad intr : Bool) :
    Triggers.eventHitSpec (fun t => t.matchLdStAddr w address timing isLoad) intr st
      (Triggers.ldStAddrTriggerHit w st address timing isLoad intr) ∧
    Triggers.eventHitSpec (fun t => t.matchLdStData w value timing isLoad) intr st
      (Triggers.ldStDataTriggerHit w st value timing isLoad intr) ∧
    Triggers.eventHitSpec (fun t => t.matchInstAddr w address timing) intr st
      (Triggers.instAddrTriggerHit w st address timing intr) ∧
    Triggers.eventHitSpec (fun t => t.matchInstOpcode w opcode timing) intr st
      (Triggers.instOpcodeTriggerHit w st opcode timing intr) :=
  ⟨Triggers.eventLoop_spec (fun t => t.matchLdStAddr w address timing isLoad)
      intr (fun t a b => rfl) st,
   Triggers.eventLoop_spec (fun t => t.matchLdStData w value timing isLoad)
      intr (fun t a b => rfl) st,
   Triggers.eventLoop_spec (fun t => t.matchInstAddr w address timing)
      intr (fun t a b => rfl) st,
   Triggers.eventLoop_spec (fun t => t.matchInstOpcode w opcode timing)
      intr (fun t a b => rfl) st⟩

theorem spec_c4_witness :
    (Triggers.ldStAddrTriggerHit 32 c4State 5 0 true true).fst = true := by
  refine ((spec_c4_event_hits 32 c4State 5 0 0 0 true true).1.1).mpr
    ⟨0, by decide, by decide, ?_⟩
  intro k h1 h2
  have he : (c4State.getT 0).chainEnd_ = 1 := by decide
  rw [he] at h2
  have hk : k = 0 := by omega
  subst hk
  exact ⟨by decide, Or.inr ⟨by decide, le_refl 0⟩⟩

/-- C5: in run mode, chain-bounds recomputation produces left-to-right
runs: every trigger's stored range `[b, e)` contains it, every member of
the range stores the same bounds, all members before the last have their
chain bit set, the range ends at the bank boundary or at a clear chain
bit, and begins at 0 or right after a clear chain bit (`runPropsAt`); in
particular chain bits `[1,1,0,1,0]` over five triggers yield ranges
`[0,3)` for indices 0-2 and `[3,5)` for indices 3-4. -/
theorem spec_c5_run_mode :
    (∀ st : TriggersState, st.chainPairs_ = false →
      (Triggers.defineChainBounds st).size = st.size ∧
      (∀ j, j < st.size → runPropsAt (Triggers.defineChainBounds st) j)) ∧
    ((List.range 5).map
        (fun i => (Triggers.defineChainBounds exampleRunState).boundsOf i) =
      [(0, 3), (0, 3), (0, 3), (3, 5), (3, 5)]) := by
  constructor
  · intro st h
    obtain ⟨hsz, hclear, hprops⟩ := Triggers.defineChainBounds_runMode st h
    exact ⟨hsz, hprops⟩
  · decide

theorem spec_c5_witness :
    exampleRunState.chainPairs_ = false ∧
    runPropsAt (Triggers.defineChainBounds exampleRunState) 0 :=
  ⟨rfl, (spec_c5_run_mode.1 exampleRunState rfl).2 0 (by decide)⟩

/-- Chain bounds of paired mode in closed form: an even index with chain
bit set and a successor in range anchors the pair `[j, j+2)`; its odd
successor joins it; everything else is a singleton `[j, j+1)`. -/
def pairedBoundsSpec (st : TriggersState) (j : Nat) : Nat × Nat :=
  if j % 2 = 0 then
    (if st.chainBit j = true ∧ j + 1 < st.size then (j, j + 2) else (j, j + 1))
  else
    (if st.chainBit (j - 1) = true then (j - 1, j + 1) else (j, j + 1))

/-- C6: in paired mode, every chain group has size at most 2 and a group
of size 2 begins at an even index whose chain bit is set; the bounds
follow the closed form `pairedBoundsSpec` (a pair `[i, i+2)` exactly
when even `i` has its chain bit set and `i+1` exists); and chain bits
stored at odd indices have no pairing effect: two paired-mode banks of
equal size agreeing on the even-indexed chain bits get identical
bounds. -/
theorem spec_c6_paired_mode :
    (∀ st : TriggersState, st.chainPairs_ = true →
      (∀ j, j < st.size →
        (Triggers.defineChainBounds st).boundsOf j = pairedBoundsSpec st j) ∧
      (∀ j, j < st.size →
        ((Triggers.defineChainBounds st).getT j).chainEnd_ ≤
          ((Triggers.defineChainBounds st).getT j).chainBegin_ + 2 ∧
        (((Triggers.defineChainBounds st).getT j).chainEnd_ =
            ((Triggers.defineChainBounds st).getT j).chainBegin_ + 2 →
          ((Triggers.defineChainBounds st).getT j).chainBegin_ % 2 = 0 ∧
          st.chainBit ((Triggers.defineChainBounds st).getT j).chainBegin_ = true))) ∧
    (∀ st st2 : TriggersState, st.chainPairs_ = true → st2.chainPairs_ = true →
      st.size = st2.size →
      (∀ k, k % 2 = 0 → st.chainBit k = st2.chainBit k) →
      ∀ j, j < st.size →
        (Triggers.defineChainBounds st).boundsOf j =
          (Triggers.defineChainBounds st2).boundsOf j) := by
  have hcf : ∀ st : TriggersState, st.chainPairs_ = true → ∀ j, j < st.size →
      (Triggers.defineChainBounds st).boundsOf j = pairedBoundsSpec st j := by
    intro st h j hj
    obtain ⟨_, _, hbof⟩ := Triggers.defineChainBounds_paired st h
    unfold pairedBoundsSpec
    exact hbof j hj
  constructor
  · intro st h
    refine ⟨hcf st h, ?_⟩
    intro j hj
    have hb := hcf st h j hj
    unfold TriggersState.boundsOf pairedBoundsSpec at hb
    rcases Nat.mod_two_eq_zero_or_one j with hp | hp
    · rw [if_pos hp] at hb
      by_cases hc : st.chainBit j = true ∧ j + 1 < st.size
      · rw [if_pos hc] at hb
        rw [Prod.mk.injEq] at hb
        refine ⟨by omega, fun _ => ⟨by omega, ?_⟩⟩
        rw [hb.1]
        exact hc.1
      · rw [if_neg hc] at hb
        rw [Prod.mk.injEq] at hb
        exact ⟨by omega, fun hx => absurd hx (by omega)⟩
    · rw [if_neg (by omega)] at hb
      by_cases hc : st.chainBit (j - 1) = true
      · rw [if_pos hc] at hb
        rw [Prod.mk.injEq] at hb
        refine ⟨by omega, fun _ => ⟨by omega, ?_⟩⟩
        rw [hb.1]
        exact hc
      · rw [if_neg hc] at hb
        rw [Prod.mk.injEq] at hb
        exact ⟨by omega, fun hx => absurd hx (by omega)⟩
  · intro st st2 h1 h2 hsz hbits j hj
    rw [hcf st h1 j hj, hcf st2 h2 j (by omega)]
    unfold pairedBoundsSpec
    rcases Nat.mod_two_eq_zero_or_one j with hp | hp
    · rw [if_pos hp, if_pos hp, hbits j hp, hsz]
    · rw [if_neg (show ¬(j % 2 = 0) by omega),
        if_neg (show ¬(j % 2 = 0) by omega), hbits (j - 1) (by omega)]

theorem spec_c6_witness :
    (Triggers.defineChainBounds examplePairState).boundsOf 1 =
      pairedBoundsSpec examplePairState 1 ∧
    pairedBoundsSpec examplePairState 1 = (0, 2) :=
  ⟨(spec_c6_paired_mode.1 examplePairState rfl).1 1 (by decide), by decide⟩

/-- C7: `Triggers::icountTriggerHit` returns true iff some trigger
passes the interrupt gate, is not marked modified, and has an expiring
countdown (`icountFires`); each trigger's final state is `icountStep` of
its old state (skipped triggers — including every modified trigger —
are unchanged; an evaluated trigger has its countdown ticked and, on
expiry, both `hit` and `localHit` set directly, with no chain
resolution); a modified trigger never fires even if its countdown would
reach zero. -/
theorem spec_c7_icount (intr : Bool) (st : TriggersState) :
    ((Triggers.icountTriggerHit intr st).fst = true ↔
      ∃ i, i < st.size ∧ Triggers.icountFires intr (st.getT i) = true) ∧
    ((Triggers.icountTriggerHit intr st).snd.size = st.size) ∧
    (∀ j, (Triggers.icountTriggerHit intr st).snd.getT j =
      if j < st.size then Triggers.icountStep intr (st.getT j) else st.getT j) ∧
    (∀ j, (st.getT j).isModified = true →
      Triggers.icountStep intr (st.getT j) = st.getT j ∧
      Triggers.icountFires intr (st.getT j) = false) := by
  have hchar : ∀ j, st.getT j =
      if j < 0 then Triggers.icountStep intr (st.getT j) else st.getT j :=
    fun j => (if_neg (by omega)).symm
  have hmain := Triggers.icountGo_spec intr st.size st st 0 false
    (by omega) rfl hchar
  have hrange : List.range st.size = List.range' 0 st.size :=
    List.range_eq_range' st.size
  refine ⟨?_, ?_, ?_, ?_⟩
  · show (Triggers.icountGo intr st false (List.range st.size)).fst = true ↔ _
    rw [hrange, hmain.1]
    constructor
    · rintro (h | ⟨i, h1, h2, h3⟩)
      · exact absurd h Bool.false_ne_true
      · exact ⟨i, h1, h3⟩
    · rintro ⟨i, h1, h2⟩
      exact Or.inr ⟨i, h1, Nat.zero_le i, h2⟩
  · show (Triggers.icountGo intr st false (List.range st.size)).snd.size = st.size
    rw [hrange]
    exact hmain.2.1
  · intro j
    show (Triggers.icountGo intr st false (List.range st.size)).snd.getT j = _
    rw [hrange]
    exact hmain.2.2 j
  · intro j hmod
    constructor
    · unfold Triggers.icountStep
      by_cases hg : (!(st.getT j).isEnterDebugOnHit && !intr) = true
      · rw [if_pos hg]
      · rw [if_neg hg, if_pos hmod]
    · unfold Triggers.icountFires
      rw [hmod]
      simp

theorem spec_c7_witness :
    (Triggers.icountTriggerHit false c7State).fst = true ∧
    Triggers.icountStep false (c7ModState.getT 0) = c7ModState.getT 0 ∧
    Triggers.icountFires false (c7ModState.getT 0) = false :=
  ⟨((spec_c7_icount false c7State).1).mpr ⟨0, by decide, by decide⟩,
   ((spec_c7_icount false c7ModState).2.2.2 0 (by decide)).1,
   ((spec_c7_icount false c7ModState).2.2.2 0 (by decide)).2⟩

/-- Comparing the low 16-bit halves after a left shift by 16 within a
32-bit register is comparing the values modulo `2 ^ 16`. -/
theorem shiftLow16_beq (a b : Nat) :
    (((a <<< 16) % 2 ^ 32) == ((b <<< 16) % 2 ^ 32)) =
      ((a % 2 ^ 16) == (b % 2 ^ 16)) := by
  have h2 : ∀ x : Nat, (x <<< 16) % 2 ^ 32 = (x % 2 ^ 16) * 2 ^ 16 := by
    intro x
    rw [Nat.shiftLeft_eq]
    rw [show (2 : Nat) ^ 32 = 2 ^ 16 * 2 ^ 16 by norm_num]
    exact Nat.mul_mod_mul_right ..
  rw [h2 a, h2 b, Bool.eq_iff_iff, beq_iff_eq, beq_iff_eq]
  constructor
  · intro h
    exact Nat.eq_of_mul_eq_mul_right (by norm_num) h
  · intro h
    rw [h]

/-- C8: `Trigger::doMatch` implements, by match mode: equality with the
compare value; masked equality through the derived compare mask;
unsigned greater-or-equal; unsigned less-than; at 32-bit width,
MaskHighEqualLow masks the item's low half with the high half of the
compare value and compares low halves (equivalently, compares modulo
`2 ^ 16` after masking); any unrecognized mode value yields false.  The
concrete conjuncts check `Equal(5,5)`, `GreaterOrEqual(7,5)`,
`LessThan(3,5)`, and that the mask drawn from compare value 0xAAAA5555
is its high half 0xAAAA. -/
theorem spec_c8_compare :
    (∀ (w : Nat) (t : Trigger) (item : Nat), t.data1_.match_ = matchEqual →
      t.doMatch w item = (item == t.data2_)) ∧
    (∀ (w : Nat) (t : Trigger) (item : Nat), t.data1_.match_ = matchMasked →
      t.doMatch w item =
        ((item &&& t.data2CompareMask_) == (t.data2_ &&& t.data2CompareMask_))) ∧
    (∀ (w : Nat) (t : Trigger) (item : Nat), t.data1_.match_ = matchGE →
      t.doMatch w item = decide (t.data2_ ≤ item)) ∧
    (∀ (w : Nat) (t : Trigger) (item : Nat), t.data1_.match_ = matchLT →
      t.doMatch w item = decide (item < t.data2_)) ∧
    (∀ (t : Trigger) (item : Nat), t.data1_.match_ = matchMaskHighEqualLow →
      t.doMatch 32 item =
        (((item &&& (t.data2_ >>> 16)) % 2 ^ 16) == (t.data2_ % 2 ^ 16))) ∧
    (∀ (w : Nat) (t : Trigger) (item : Nat), 6 ≤ t.data1_.match_ →
      t.doMatch w item = false) ∧
    (Trigger.doMatch 32 { defaultTrigger with data2_ := 5 } 5 = true ∧
     Trigger.doMatch 32 { defaultTrigger with data1_ := geData1, data2_ := 5 } 7 = true ∧
     Trigger.doMatch 32 { defaultTrigger with data1_ := ltData1, data2_ := 5 } 3 = true ∧
     maskHighTrigger.data2_ >>> 16 = 0xAAAA) := by
  refine ⟨?_, ?_, ?_, ?_, ?_, ?_, by decide, by decide, by decide, by decide⟩
  · intro w t item h
    unfold Trigger.doMatch
    rw [h, if_pos rfl]
  · intro w t item h
    unfold Trigger.doMatch
    rw [h, if_neg (by decide), if_pos rfl]
  · intro w t item h
    unfold Trigger.doMatch
    rw [h, if_neg (by decide), if_neg (by decide), if_pos rfl]
  · intro w t item h
    unfold Trigger.doMatch
    rw [h, if_neg (by decide), if_neg (by decide), if_neg (by decide), if_pos rfl]
  · intro t item h
    unfold Trigger.doMatch
    rw [h, if_neg (by decide), if_neg (by decide), if_neg (by decide),
      if_neg (by decide), if_pos rfl]
    exact shiftLow16_beq (item &&& (t.data2_ >>> (32 / 2))) t.data2_
  · intro w t item h
    unfold Trigger.doMatch
    unfold matchEqual matchMasked matchGE matchLT
      matchMaskHighEqualLow matchMaskLowEqualHigh
    rw [if_neg (by omega), if_neg (by omega), if_neg (by omega),
      if_neg (by omega), if_neg (by omega), if_neg (by omega)]

theorem spec_c8_witness :
    maskHighTrigger.doMatch 32 74565 =
      (((74565 &&& (maskHighTrigger.data2_ >>> 16)) % 2 ^ 16) ==
        (maskHighTrigger.data2_ % 2 ^ 16)) :=
  spec_c8_compare.2.2.2.2.1 maskHighTrigger 74565 (by decide)

/-- C9 counterexample: `Triggers::config` called with index 1 on a bank
whose trigger count is 1 (so index ≥ count) does not fail: it succeeds
and grows the bank to two triggers, refuting the claim that every listed
index-taking operation, config included, returns false without mutation
for an index at or beyond the trigger count. -/
theorem spec_c9_config_growth :
    (Triggers.init 1 false).size ≤ 1 ∧
    (Triggers.config 32 (Triggers.init 1 false) 1 defaultData1 0 0
      defaultData1Mask 0 0 defaultData1Mask 0 0).map TriggersState.size = some 2 := by
  decide

/-- C9 (amended): every index-taking bank operation except `config` —
readData1/2/3, writeData1/2/3, both peeks, the three-register poke and
pokeData1/2/3 — called with an index at or beyond the trigger count
returns a failure outcome and leaves the state untouched.  `config` is
excluded: by design it can grow the bank (and, as coded, it mishandles
out-of-range indices; see the C2 analysis). -/
theorem spec_c9_oob (w : Nat) (st : TriggersState) (ix : Nat)
    (debugMode : Bool) (v1 : Data1) (v2 v3 : Nat) (hix : st.size ≤ ix) :
    Triggers.readData1 st ix = none ∧
    Triggers.readData2 st ix = none ∧
    Triggers.readData3 st ix = none ∧
    Triggers.writeData1 st ix debugMode v1 = (false, st) ∧
    Triggers.writeData2 w st ix debugMode v2 = (false, st) ∧
    Triggers.writeData3 st ix debugMode v3 = (false, st) ∧
    Triggers.peek st ix = none ∧
    Triggers.peekAll st ix = none ∧
    Triggers.poke w st ix v1 v2 v3 = (false, st) ∧
    Triggers.pokeData1 st ix v1 = (false, st) ∧
    Triggers.pokeData2 w st ix v2 = (false, st) ∧
    Triggers.pokeData3 st ix v3 = (false, st) := by
  have hno : ¬(ix < st.size) := by omega
  refine ⟨?_, ?_, ?_, ?_, ?_, ?_, ?_, ?_, ?_, ?_, ?_, ?_⟩
  · simp only [Triggers.readData1]
    rw [if_neg hno]
  · simp only [Triggers.readData2]
    rw [if_neg hno]
  · simp only [Triggers.readData3]
    rw [if_neg hno]
  · simp only [Triggers.writeData1]
    rw [if_neg hno]
  · simp only [Triggers.writeData2]
    rw [if_neg hno]
  · simp only [Triggers.writeData3]
    rw [if_neg hno]
  · simp only [Triggers.peek]
    rw [if_neg hno]
  · simp only [Triggers.peekAll]
    rw [if_neg hno]
  · simp only [Triggers.poke]
    rw [if_neg hno]
  · simp only [Triggers.pokeData1]
    rw [if_neg hno]
  · simp only [Triggers.pokeData2]
    rw [if_neg hno]
  · simp only [Triggers.pokeData3]
    rw [if_neg hno]

theorem spec_c9_witness :
    Triggers.readData1 (Triggers.init 1 false) 5 = none ∧
    Triggers.pokeData1 (Triggers.init 1 false) 5 chainOneData1 =
      (false, Triggers.init 1 false) :=
  ⟨(spec_c9_oob 32 (Triggers.init 1 false) 5 true chainOneData1 0 0 (by decide)).1,
   (spec_c9_oob 32 (Triggers.init 1 false) 5 true chainOneData1 0 0
     (by decide)).2.2.2.2.2.2.2.2.2.1⟩

/-- Sub-lemma for C10: `doMatchM` returns the trigger unchanged. -/
theorem doMatchM_snd (w : Nat) (t : Trigger) (item : Nat) :
    (t.doMatchM w item).snd = t := by
  unfold Trigger.doMatchM
  split_ifs <;> rfl

/-- Sub-lemma for C10: `doMatchM` computes the pure comparator. -/
theorem doMatchM_fst (w : Nat) (t : Trigger) (item : Nat) :
    (t.doMatchM w item).fst = t.doMatch w item := by
  unfold Trigger.doMatchM Trigger.doMatch
  split_ifs <;> rfl

/-- C10: the match predicates and the comparator of `Trigger` are pure
observers.  Read as state transformers (the `...M` readings of the
`const` methods), each returns the receiving trigger unchanged, and its
boolean component agrees with the pure predicate used by the bank; the
bank state is untouched since these are `Trigger`-level functions. -/
theorem spec_c10_match_pure (w : Nat) (t : Trigger)
    (address value opcode item timing : Nat) (isLoad : Bool) :
    (t.doMatchM w item).snd = t ∧
    (t.doMatchM w item).fst = t.doMatch w item ∧
    (t.matchLdStAddrM w address timing isLoad).snd = t ∧
    (t.matchLdStAddrM w address timing isLoad).fst =
      t.matchLdStAddr w address timing isLoad ∧
    (t.matchLdStDataM w value timing isLoad).snd = t ∧
    (t.matchLdStDataM w value timing isLoad).fst =
      t.matchLdStData w value timing isLoad ∧
    (t.matchInstAddrM w address timing).snd = t ∧
    (t.matchInstAddrM w address timing).fst = t.matchInstAddr w address timing ∧
    (t.matchInstOpcodeM w opcode timing).snd = t ∧
    (t.matchInstOpcodeM w opcode timing).fst = t.matchInstOpcode w opcode timing := by
  refine ⟨doMatchM_snd w t item, doMatchM_fst w t item, ?_, ?_, ?_, ?_, ?_, ?_, ?_, ?_⟩
  · simp only [Trigger.matchLdStAddrM]
    split_ifs <;> first | rfl | exact doMatchM_snd ..
  · simp only [Trigger.matchLdStAddrM, Trigger.matchLdStAddr]
    split_ifs <;> first | rfl | exact doMatchM_fst ..
  · simp only [Trigger.matchLdStDataM]
    split_ifs <;> first | rfl | exact doMatchM_snd ..
  · simp only [Trigger.matchLdStDataM, Trigger.matchLdStData]
    split_ifs <;> first | rfl | exact doMatchM_fst ..
  · simp only [Trigger.matchInstAddrM]
    split_ifs <;> first | rfl | exact doMatchM_snd ..
  · simp only [Trigger.matchInstAddrM, Trigger.matchInstAddr]
    split_ifs <;> first | rfl | exact doMatchM_fst ..
  · simp only [Trigger.matchInstOpcodeM]
    split_ifs <;> first | rfl | exact doMatchM_snd ..
  · simp only [Trigger.matchInstOpcodeM, Trigger.matchInstOpcode]
    split_ifs <;> first | rfl | exact doMatchM_fst ..
